import Mathlib

/-!
Verification of the scheduling-and-routing core of the PM-bot system.

Shallow embedding of the source modules
`core/module_manager.py`, `core/task_orchestrator.py` and
`core/smart_agent_router.py`.  Python dictionaries are modelled as
association lists (insertion order preserved, as in CPython), Python sets
as duplicate-free lists whose order stands for the (unspecified) iteration
order of the set, numeric values as rationals, and `datetime.now()` values
as opaque strings supplied by the caller.  Fields of the source data
classes that no embedded operation reads (timestamps, deliverable payload
dictionaries) are omitted.
-/

namespace PMBot

/-! ## Module manager data model (`core/module_manager.py`) -/

/-- `ModuleStatus` enum, `module_manager.py` lines 18-27.  Note the source
enum has no `paused` member. -/
inductive ModuleStatus where
  | planned
  | ready
  | in_progress
  | waiting_dependency
  | testing
  | completed
  | failed
  | cancelled
  deriving DecidableEq, Repr

/-- A value stored in the dynamically-typed `metrics` dictionary of a
module: the embedded operations only ever store numbers
(`paused_progress`) and strings (`paused_at`, error text). -/
inductive MVal where
  | num (q : Rat)
  | str (s : String)
  deriving DecidableEq, Repr

/-- `metrics[k] = v` on a Python dict: replace in place if the key is
present, otherwise append (CPython keeps insertion order). -/
def setMetric (k : String) (v : MVal) : List (String × MVal) → List (String × MVal)
  | [] => [(k, v)]
  | (k', v') :: rest =>
      cond (k' == k) ((k, v) :: rest) ((k', v') :: setMetric k v rest)

/-- `del d[k]` on a Python dict with unique keys. -/
def kvErase (k : String) (m : List (String × MVal)) : List (String × MVal) :=
  m.filter (fun p => !(p.1 == k))

/-- `ModuleSpec` dataclass, `core/planner.py` lines 18-28. -/
structure ModuleSpec where
  name : String
  type : String
  description : String
  dependencies : List String
  agents_needed : List String
  complexity : Int
  estimated_hours : Int
  tech_stack : List String
  apis_needed : List String
  database_entities : List String
  deriving DecidableEq, Repr

/-- `ModuleState` dataclass, `module_manager.py` lines 30-55.  The
`start_time`, `end_time` and `deliverables` fields are omitted: no
operation embedded here reads them. -/
structure ModuleState where
  name : String
  spec : ModuleSpec
  status : ModuleStatus
  progress : Rat := 0
  assigned_agents : List String := []
  dependencies_met : List String := []
  blockers : List String := []
  metrics : List (String × MVal) := []
  deriving DecidableEq, Repr

/-- The `self.modules` dictionary of `ModuleManager`, keyed by module
name. -/
abbrev Modules := List (String × ModuleState)

/-- Mutate the module object stored under `module_name` in place (Python
mutates the `ModuleState` object held in the dict). -/
def updModule (module_name : String) (f : ModuleState → ModuleState) (mm : Modules) : Modules :=
  mm.map (fun p => cond (p.1 == module_name) (p.1, f p.2) p)

/-- `pause_module`, `module_manager.py` lines 390-403.  When the module is
`in_progress` the current time and progress are saved into `metrics`; the
`status` field is never assigned.  `now` stands for
`datetime.now().isoformat()`. -/
def pausedUpdate (now : String) (ms' : ModuleState) : ModuleState :=
  { ms' with
    metrics := setMetric "paused_progress" (MVal.num ms'.progress)
                 (setMetric "paused_at" (MVal.str now) ms'.metrics) }

def pause_module (mm : Modules) (module_name : String) (now : String) : Modules :=
  match mm.lookup module_name with
  | none => mm
  | some ms =>
      if ms.status = ModuleStatus.in_progress then
        updModule module_name (pausedUpdate now) mm
      else mm

/-- The dynamically-typed assignment `module_state.progress =
module_state.metrics["paused_progress"]`: the only writer of this key
(`pause_module`) stores a number; a non-numeric stored value is modelled
as leaving the progress field unchanged. -/
def restoreProgress (v : MVal) (old : Rat) : Rat :=
  match v with
  | MVal.num q => q
  | MVal.str _ => old

/-- `resume_module`, `module_manager.py` lines 405-422.  If
`"paused_progress"` is present the progress is restored and both saved
keys are deleted (`del metrics["paused_at"]` raises `KeyError` if that key
is absent, in which case `status` is never assigned — modelled as
`Except.error`); in every non-raising path the status is set to
`IN_PROGRESS` unconditionally. -/
def resumeRestore (v : MVal) (ms' : ModuleState) : ModuleState :=
  { ms' with
    progress := restoreProgress v ms'.progress,
    metrics := kvErase "paused_at" (kvErase "paused_progress" ms'.metrics),
    status := ModuleStatus.in_progress }

def resumeStart (ms' : ModuleState) : ModuleState :=
  { ms' with status := ModuleStatus.in_progress }

def resume_module (mm : Modules) (module_name : String) : Except String Modules :=
  match mm.lookup module_name with
  | none => Except.ok mm
  | some ms =>
      match ms.metrics.lookup "paused_progress" with
      | some v =>
          if (ms.metrics.lookup "paused_at").isSome then
            Except.ok (updModule module_name (resumeRestore v) mm)
          else Except.error "KeyError: paused_at"
      | none => Except.ok (updModule module_name resumeStart mm)

/-! ### Association-list helper lemmas -/

theorem lookup_updModule_self (mm : Modules) (n : String) (f : ModuleState → ModuleState) :
    (updModule n f mm).lookup n = (mm.lookup n).map f := by
  induction mm with
  | nil => rfl
  | cons p rest ih =>
      obtain ⟨k, v⟩ := p
      by_cases h : k = n
      · subst h
        simp [updModule, List.lookup]
      · have hb : (n == k) = false := by
          simp only [beq_eq_false_iff_ne, ne_eq]
          exact fun hc => h hc.symm
        have hb' : (k == n) = false := by
          simp only [beq_eq_false_iff_ne, ne_eq]
          exact h
        simp only [updModule, List.map_cons, hb', cond_false, List.lookup, hb]
        exact ih

theorem lookup_setMetric_self (m : List (String × MVal)) (k : String) (v : MVal) :
    (setMetric k v m).lookup k = some v := by
  induction m with
  | nil => simp [setMetric, List.lookup]
  | cons p rest ih =>
      obtain ⟨k', v'⟩ := p
      by_cases h : k' = k
      · subst h
        simp [setMetric, List.lookup]
      · have hb : (k == k') = false := by
          simp only [beq_eq_false_iff_ne, ne_eq]
          exact fun hc => h hc.symm
        have hb' : (k' == k) = false := by
          simp only [beq_eq_false_iff_ne, ne_eq]
          exact h
        simp only [setMetric, hb', cond_false, List.lookup, hb]
        exact ih

theorem lookup_setMetric_other (m : List (String × MVal)) (k k' : String) (v : MVal)
    (h : k' ≠ k) : (setMetric k v m).lookup k' = m.lookup k' := by
  have hb : (k' == k) = false := by
    simp only [beq_eq_false_iff_ne, ne_eq]
    exact h
  induction m with
  | nil => simp only [setMetric, List.lookup, hb]
  | cons p rest ih =>
      obtain ⟨k0, v0⟩ := p
      by_cases hp : k0 = k
      · subst hp
        simp only [setMetric, beq_self_eq_true, cond_true, List.lookup, hb]
      · have hp' : (k0 == k) = false := by
          simp only [beq_eq_false_iff_ne, ne_eq]
          exact hp
        simp only [setMetric, hp', cond_false, List.lookup]
        by_cases hk : k' = k0
        · subst hk
          simp
        · have hb' : (k' == k0) = false := by
            simp only [beq_eq_false_iff_ne, ne_eq]
            exact hk
          simp only [hb']
          exact ih

/-! ### Pause / resume (claims C7, C10) -/

/-- A small concrete module specification used as test data. -/
def specBackend : ModuleSpec :=
  { name := "m", type := "backend", description := "demo module",
    dependencies := [], agents_needed := [], complexity := 1,
    estimated_hours := 1, tech_stack := [], apis_needed := [],
    database_entities := [] }

/-- A module currently `in_progress` at 42% with empty metrics. -/
def msRunning : ModuleState :=
  { name := "m", spec := specBackend, status := ModuleStatus.in_progress,
    progress := 42 }

/-- A manager holding just `msRunning`. -/
def mmRunning : Modules := [("m", msRunning)]

/-- A completed module with empty metrics. -/
def msDone : ModuleState :=
  { name := "d", spec := specBackend, status := ModuleStatus.completed,
    progress := 100 }

/-- A manager holding just `msDone`. -/
def mmDone : Modules := [("d", msDone)]

/-- C7 counterexample: pausing the `in_progress` module `"m"` leaves its
status equal to `in_progress` — there is no distinct paused status (the
`ModuleStatus` enum has no such member), so the claimed
`in_progress → paused` transition does not happen. -/
theorem pause_module_no_paused_status_counterexample :
    ((pause_module mmRunning "m" "t0").lookup "m").map ModuleState.status
      = some ModuleStatus.in_progress := by
  rfl

/-- Unfolding equation for `pause_module` when the module exists. -/
theorem pause_module_eq (mm : Modules) (name now : String) (ms : ModuleState)
    (hfind : mm.lookup name = some ms) :
    pause_module mm name now =
      if ms.status = ModuleStatus.in_progress then
        updModule name (pausedUpdate now) mm
      else mm := by
  unfold pause_module
  rw [hfind]

/-- Unfolding equation for `resume_module` when the module exists. -/
theorem resume_module_eq (mm : Modules) (name : String) (ms : ModuleState)
    (hfind : mm.lookup name = some ms) :
    resume_module mm name =
      match ms.metrics.lookup "paused_progress" with
      | some v =>
          if (ms.metrics.lookup "paused_at").isSome then
            Except.ok (updModule name (resumeRestore v) mm)
          else Except.error "KeyError: paused_at"
      | none => Except.ok (updModule name resumeStart mm) := by
  unfold resume_module
  rw [hfind]

/-- C7 (amended): pausing an `in_progress` module keeps its status
`in_progress` while saving the current progress under the
`"paused_progress"` metrics key, and resuming restores exactly that
progress value and sets the status to `in_progress`. -/
theorem pause_resume_roundtrip (mm : Modules) (name now : String) (ms : ModuleState)
    (hfind : mm.lookup name = some ms)
    (hstat : ms.status = ModuleStatus.in_progress) :
    ∃ msP msR : ModuleState,
      (pause_module mm name now).lookup name = some msP ∧
      msP.status = ModuleStatus.in_progress ∧
      msP.metrics.lookup "paused_progress" = some (MVal.num ms.progress) ∧
      ∃ mmR : Modules,
        resume_module (pause_module mm name now) name = Except.ok mmR ∧
        mmR.lookup name = some msR ∧
        msR.status = ModuleStatus.in_progress ∧
        msR.progress = ms.progress := by
  have h1 : (pause_module mm name now).lookup name = some (pausedUpdate now ms) := by
    rw [pause_module_eq mm name now ms hfind, if_pos hstat,
        lookup_updModule_self, hfind]
    rfl
  have hpp : (pausedUpdate now ms).metrics.lookup "paused_progress"
      = some (MVal.num ms.progress) := lookup_setMetric_self _ _ _
  have hpa : (pausedUpdate now ms).metrics.lookup "paused_at"
      = some (MVal.str now) := by
    show (setMetric "paused_progress" _ (setMetric "paused_at" _ ms.metrics)).lookup
        "paused_at" = _
    rw [lookup_setMetric_other _ _ _ _ (by decide)]
    exact lookup_setMetric_self _ _ _
  have h2 : resume_module (pause_module mm name now) name
      = Except.ok (updModule name (resumeRestore (MVal.num ms.progress))
          (pause_module mm name now)) := by
    rw [resume_module_eq _ name (pausedUpdate now ms) h1, hpp, hpa]
    rfl
  have h3 : (updModule name (resumeRestore (MVal.num ms.progress))
        (pause_module mm name now)).lookup name
      = some (resumeRestore (MVal.num ms.progress) (pausedUpdate now ms)) := by
    rw [lookup_updModule_self, h1]
    rfl
  exact ⟨pausedUpdate now ms, resumeRestore (MVal.num ms.progress) (pausedUpdate now ms),
    h1, hstat, hpp, _, h2, h3, rfl, rfl⟩

/-- C7 witness: the round-trip theorem applied to the concrete manager
`mmRunning` whose module `"m"` is `in_progress` at progress 42. -/
theorem pause_resume_roundtrip_witness :
    mmRunning.lookup "m" = some msRunning ∧
    msRunning.status = ModuleStatus.in_progress ∧
    ∃ msP msR : ModuleState,
      (pause_module mmRunning "m" "t0").lookup "m" = some msP ∧
      msP.status = ModuleStatus.in_progress ∧
      msP.metrics.lookup "paused_progress" = some (MVal.num msRunning.progress) ∧
      ∃ mmR : Modules,
        resume_module (pause_module mmRunning "m" "t0") "m" = Except.ok mmR ∧
        mmR.lookup "m" = some msR ∧
        msR.status = ModuleStatus.in_progress ∧
        msR.progress = msRunning.progress :=
  ⟨rfl, rfl, pause_resume_roundtrip mmRunning "m" "t0" msRunning rfl rfl⟩

/-- C10: for every registered module, `resume_module` sets the status to
`in_progress` unconditionally — no guard inspects the current status, so
completed, failed, cancelled, planned or ready modules are moved to
`in_progress` as well.  The well-formedness hypothesis (a saved
`paused_progress` is always accompanied by `paused_at`, as `pause_module`
guarantees) only rules out the `KeyError` path of the raw dictionary
deletes. -/
theorem resume_module_unconditional (mm : Modules) (name : String) (ms : ModuleState)
    (hfind : mm.lookup name = some ms)
    (hwf : (ms.metrics.lookup "paused_progress").isSome = true →
           (ms.metrics.lookup "paused_at").isSome = true) :
    ∃ mmR : Modules, resume_module mm name = Except.ok mmR ∧
      (mmR.lookup name).map ModuleState.status = some ModuleStatus.in_progress := by
  rw [resume_module_eq mm name ms hfind]
  cases hpp : ms.metrics.lookup "paused_progress" with
  | none =>
      refine ⟨_, rfl, ?_⟩
      rw [lookup_updModule_self, hfind]
      rfl
  | some v =>
      have hpa : (ms.metrics.lookup "paused_at").isSome = true := by
        apply hwf
        rw [hpp]
        rfl
      simp only [hpa, if_true]
      refine ⟨_, rfl, ?_⟩
      rw [lookup_updModule_self, hfind]
      rfl

/-- C10 witness: resuming the completed module `"d"` (never paused) moves
it to `in_progress`. -/
theorem resume_module_unconditional_witness :
    mmDone.lookup "d" = some msDone ∧
    ∃ mmR : Modules, resume_module mmDone "d" = Except.ok mmR ∧
      (mmR.lookup "d").map ModuleState.status = some ModuleStatus.in_progress :=
  ⟨rfl, resume_module_unconditional mmDone "d" msDone rfl (fun h => h)⟩

/-! ## Smart agent router (`core/smart_agent_router.py`) -/

/-- `TaskComplexity` enum, `smart_agent_router.py` lines 13-17. -/
inductive TaskComplexity where
  | SIMPLE
  | MEDIUM
  | COMPLEX
  | CRITICAL
  deriving DecidableEq, BEq, Repr

/-- `CostTier` enum, `smart_agent_router.py` lines 19-23. -/
inductive CostTier where
  | FREE
  | LOW
  | MEDIUM
  | HIGH
  deriving DecidableEq, BEq, Repr

/-- The integer `.value` of a `CostTier` enum member. -/
def CostTier.value : CostTier → Nat
  | CostTier.FREE => 0
  | CostTier.LOW => 1
  | CostTier.MEDIUM => 2
  | CostTier.HIGH => 3

/-- `AgentCapability` dataclass, `smart_agent_router.py` lines 25-33. -/
structure AgentCapability where
  model : String
  cost_tier : CostTier
  specializations : List String
  quality_scores : List (String × Rat)
  context_window : Nat
  speed_rating : Rat
  reliability_score : Rat
  deriving DecidableEq, Repr

/-- Capability record of `"deepseek-r1:14b"` (router lines 44-65). -/
def capDeepseek : AgentCapability :=
  { model := "deepseek-r1:14b"
    cost_tier := CostTier.FREE
    specializations :=
      ["backend_implementation", "api_design", "database_schema",
       "code_optimization", "debugging", "algorithm_implementation",
       "system_architecture", "performance_tuning"]
    quality_scores :=
      [("backend_development", 0.9), ("algorithm_implementation", 0.95),
       ("code_optimization", 0.9), ("debugging", 0.85), ("api_design", 0.85),
       ("frontend_development", 0.6), ("ui_design", 0.4),
       ("content_creation", 0.5)]
    context_window := 32768
    speed_rating := 0.8
    reliability_score := 0.9 }

/-- Capability record of `"llama3.2:latest"` (router lines 67-87). -/
def capLlama : AgentCapability :=
  { model := "llama3.2:latest"
    cost_tier := CostTier.FREE
    specializations :=
      ["general_coding", "documentation", "testing",
       "code_review", "simple_frontend", "scripting"]
    quality_scores :=
      [("general_coding", 0.8), ("documentation", 0.85), ("testing", 0.8),
       ("code_review", 0.75), ("simple_frontend", 0.7),
       ("backend_development", 0.7), ("algorithm_implementation", 0.7),
       ("ui_design", 0.5)]
    context_window := 8192
    speed_rating := 0.9
    reliability_score := 0.8 }

/-- Capability record of `"qwen2.5-coder:7b"` (router lines 89-108). -/
def capQwen : AgentCapability :=
  { model := "qwen2.5-coder:7b"
    cost_tier := CostTier.FREE
    specializations :=
      ["devops", "infrastructure", "docker", "kubernetes",
       "ci_cd", "automation", "configuration"]
    quality_scores :=
      [("devops", 0.9), ("infrastructure", 0.85), ("automation", 0.85),
       ("configuration", 0.8), ("backend_development", 0.7),
       ("testing", 0.75), ("frontend_development", 0.5)]
    context_window := 16384
    speed_rating := 0.85
    reliability_score := 0.85 }

/-- Capability record of `"claude-3-5-sonnet"` (router lines 111-133). -/
def capClaude : AgentCapability :=
  { model := "claude-3-5-sonnet"
    cost_tier := CostTier.MEDIUM
    specializations :=
      ["frontend_development", "ui_design", "user_experience",
       "complex_logic", "analysis", "planning", "architecture_review",
       "security_analysis", "code_quality"]
    quality_scores :=
      [("frontend_development", 0.95), ("ui_design", 0.9),
       ("user_experience", 0.9), ("analysis", 0.95), ("planning", 0.9),
       ("security_analysis", 0.9), ("code_quality", 0.95),
       ("backend_development", 0.85), ("algorithm_implementation", 0.85)]
    context_window := 200000
    speed_rating := 0.7
    reliability_score := 0.95 }

/-- Capability record of `"gpt-4o"` (router lines 135-156). -/
def capGpt4o : AgentCapability :=
  { model := "gpt-4o"
    cost_tier := CostTier.MEDIUM
    specializations :=
      ["creative_solutions", "complex_problem_solving",
       "integration", "full_stack", "mobile_development",
       "user_interaction", "business_logic"]
    quality_scores :=
      [("creative_solutions", 0.9), ("complex_problem_solving", 0.9),
       ("integration", 0.85), ("mobile_development", 0.85),
       ("full_stack", 0.8), ("frontend_development", 0.8),
       ("backend_development", 0.8), ("ui_design", 0.75)]
    context_window := 128000
    speed_rating := 0.75
    reliability_score := 0.9 }

/-- The `self.agent_capabilities` dictionary in registration order
(router lines 42-157). -/
def agent_capabilities : List (String × AgentCapability) :=
  [("deepseek-r1:14b", capDeepseek),
   ("llama3.2:latest", capLlama),
   ("qwen2.5-coder:7b", capQwen),
   ("claude-3-5-sonnet", capClaude),
   ("gpt-4o", capGpt4o)]

/-- Quality score for a task type with the complexity adjustment of
`select_optimal_agent` (router lines 276-283): dictionary default 0.5,
+0.1 for a free-tier agent on a SIMPLE task, +0.05 for a medium/high-tier
agent on a CRITICAL task. -/
def qualityAdjusted (cap : AgentCapability) (task_type : String)
    (complexity : TaskComplexity) : Rat :=
  let quality_score := (cap.quality_scores.lookup task_type).getD 0.5
  if complexity = TaskComplexity.SIMPLE ∧ cap.cost_tier = CostTier.FREE then
    quality_score + 0.1
  else if complexity = TaskComplexity.CRITICAL ∧
      (cap.cost_tier = CostTier.MEDIUM ∨ cap.cost_tier = CostTier.HIGH) then
    quality_score + 0.05
  else quality_score

/-- `cost_score = 1.0 - (capability.cost_tier.value / 3.0)` (router
line 286). -/
def costScore (cap : AgentCapability) : Rat :=
  1 - (CostTier.value cap.cost_tier : Rat) / 3

/-- Combined score of one agent (router lines 285-301): preference
weighting, +0.1 specialization bonus, multiplied by reliability. -/
def combinedScore (cap : AgentCapability) (task_type : String)
    (complexity : TaskComplexity) (budget_preference : String) : Rat :=
  let quality_score := qualityAdjusted cap task_type complexity
  let cost_score := costScore cap
  let combined :=
    if budget_preference = "cost_optimized" then
      0.2 * quality_score + 0.8 * cost_score
    else if budget_preference = "quality_first" then
      0.8 * quality_score + 0.2 * cost_score
    else
      0.6 * quality_score + 0.4 * cost_score
  let combined :=
    if cap.specializations.contains task_type then combined + 0.1 else combined
  combined * cap.reliability_score

/-- The `agent_scores` list `(model_name, combined_score, quality_score,
capability)` built in registration order (router lines 273-303). -/
def agentScores (task_type : String) (complexity : TaskComplexity)
    (budget_preference : String) : List (String × Rat × Rat × AgentCapability) :=
  agent_capabilities.map (fun p =>
    (p.1, combinedScore p.2 task_type complexity budget_preference,
     qualityAdjusted p.2 task_type complexity, p.2))

/-- Python `max(agent_scores, key=lambda x: x[1])`: the first element of
maximal key (a later element replaces the current best only when strictly
greater). -/
def maxByCombined : List (String × Rat × Rat × AgentCapability) →
    Option (String × Rat × Rat × AgentCapability)
  | [] => none
  | x :: xs => some (xs.foldl (fun best y => if best.2.1 < y.2.1 then y else best) x)

/-- `select_optimal_agent` (router lines 258-316) after task
classification: the returned pair is `(model_name, quality_score)`; the
human-readable reasoning string is presentation glue and not modelled.
`analyze_task_type` feeds into the selection only through the classified
`(task_type, complexity)` pair, which this embedding takes as input. -/
def select_optimal_agent (task_type : String) (complexity : TaskComplexity)
    (budget_preference : String) : Option (String × Rat) :=
  (maxByCombined (agentScores task_type complexity budget_preference)).map
    (fun best => (best.1, best.2.2.1))

/-- `get_cost_estimate` result record (router lines 369-376). -/
structure CostEstimate where
  model : String
  estimated_tokens : Nat
  cost_tier : CostTier
  estimated_cost_usd : Rat
  is_local : Bool
  context_window : Nat
  deriving DecidableEq, Repr

/-- `cost_per_1k_tokens` table (router lines 360-365). -/
def cost_per_1k_tokens : CostTier → Rat
  | CostTier.FREE => 0
  | CostTier.LOW => 0.001
  | CostTier.MEDIUM => 0.003
  | CostTier.HIGH => 0.01

/-- `get_cost_estimate` (router lines 351-376); an unknown model name
yields the `{"error": ...}` dictionary, modelled as `none`. -/
def get_cost_estimate (model_name : String) (estimated_tokens : Nat) :
    Option CostEstimate :=
  match agent_capabilities.lookup model_name with
  | none => none
  | some cap =>
      some
        { model := model_name
          estimated_tokens := estimated_tokens
          cost_tier := cap.cost_tier
          estimated_cost_usd :=
            ((estimated_tokens : Rat) / 1000) * cost_per_1k_tokens cap.cost_tier
          is_local := cap.cost_tier == CostTier.FREE
          context_window := cap.context_window }

/-! ### Router theorems (claims C6, C9) -/

/-- C6: whatever complexity the classifier attaches to a task whose
classified category is `"devops"`, selection under the `cost_optimized`
budget preference returns a registered free-tier agent with `"devops"`
among its specialization tags — and such an agent is indeed registered.
(`analyze_task_type` influences selection only through the classified
`(task_type, complexity)` pair.) -/
theorem select_devops_cost_optimized_free (complexity : TaskComplexity) :
    (agent_capabilities.any (fun p =>
        p.2.cost_tier == CostTier.FREE && p.2.specializations.contains "devops"))
      = true ∧
    ((select_optimal_agent "devops" complexity "cost_optimized").bind (fun r =>
        (agent_capabilities.lookup r.1).map (fun cap =>
          (cap.cost_tier, cap.specializations.contains "devops"))))
      = some (CostTier.FREE, true) := by
  cases complexity <;>
  · refine ⟨rfl, ?_⟩
    simp only [select_optimal_agent, agentScores, maxByCombined, agent_capabilities,
      capDeepseek, capLlama, capQwen, capClaude, capGpt4o, combinedScore,
      qualityAdjusted, costScore, CostTier.value, List.map, List.foldl,
      List.lookup, List.contains, List.elem, Option.getD, String.reduceBEq,
      String.reduceEq, reduceCtorEq, and_false, false_and, and_true, true_and,
      or_false, false_or, if_false, if_true, ite_false, ite_true]
    norm_num
    simp [List.lookup]

/-- Unfolding equation for `get_cost_estimate` on a registered model. -/
theorem get_cost_estimate_eq (model_name : String) (cap : AgentCapability)
    (t : Nat) (hreg : agent_capabilities.lookup model_name = some cap) :
    get_cost_estimate model_name t =
      some
        { model := model_name
          estimated_tokens := t
          cost_tier := cap.cost_tier
          estimated_cost_usd := ((t : Rat) / 1000) * cost_per_1k_tokens cap.cost_tier
          is_local := cap.cost_tier == CostTier.FREE
          context_window := cap.context_window } := by
  unfold get_cost_estimate
  rw [hreg]

/-- C9: for every registered agent the cost estimate is monotonically
non-decreasing in the token count, and for a free-tier agent it is
exactly zero at every token count. -/
theorem get_cost_estimate_monotone_free_zero (model_name : String)
    (cap : AgentCapability) (t1 t2 : Nat)
    (hreg : agent_capabilities.lookup model_name = some cap) (h12 : t1 ≤ t2) :
    ∃ e1 e2 : CostEstimate,
      get_cost_estimate model_name t1 = some e1 ∧
      get_cost_estimate model_name t2 = some e2 ∧
      e1.estimated_cost_usd ≤ e2.estimated_cost_usd ∧
      (cap.cost_tier = CostTier.FREE →
        ∀ t : Nat, ∃ e : CostEstimate,
          get_cost_estimate model_name t = some e ∧ e.estimated_cost_usd = 0) := by
  have hrate : 0 ≤ cost_per_1k_tokens cap.cost_tier := by
    cases cap.cost_tier <;> norm_num [cost_per_1k_tokens]
  refine ⟨_, _, get_cost_estimate_eq model_name cap t1 hreg,
    get_cost_estimate_eq model_name cap t2 hreg, ?_, ?_⟩
  · show ((t1 : Rat) / 1000) * cost_per_1k_tokens cap.cost_tier
        ≤ ((t2 : Rat) / 1000) * cost_per_1k_tokens cap.cost_tier
    have hc : (t1 : Rat) ≤ (t2 : Rat) := by exact_mod_cast h12
    have hdiv : (t1 : Rat) / 1000 ≤ (t2 : Rat) / 1000 :=
      (div_le_div_iff_of_pos_right (by norm_num)).mpr hc
    exact mul_le_mul_of_nonneg_right hdiv hrate
  · intro hfree t
    refine ⟨_, get_cost_estimate_eq model_name cap t hreg, ?_⟩
    show ((t : Rat) / 1000) * cost_per_1k_tokens cap.cost_tier = 0
    rw [hfree]
    show ((t : Rat) / 1000) * 0 = 0
    exact mul_zero _

/-- C9 witness: the cost-estimate theorem at the registered free-tier
model `"deepseek-r1:14b"` with token counts 500 ≤ 2000. -/
theorem get_cost_estimate_monotone_free_zero_witness :
    agent_capabilities.lookup "deepseek-r1:14b" = some capDeepseek ∧
    500 ≤ 2000 ∧
    ∃ e1 e2 : CostEstimate,
      get_cost_estimate "deepseek-r1:14b" 500 = some e1 ∧
      get_cost_estimate "deepseek-r1:14b" 2000 = some e2 ∧
      e1.estimated_cost_usd ≤ e2.estimated_cost_usd ∧
      (capDeepseek.cost_tier = CostTier.FREE →
        ∀ t : Nat, ∃ e : CostEstimate,
          get_cost_estimate "deepseek-r1:14b" t = some e ∧
          e.estimated_cost_usd = 0) :=
  ⟨rfl, by norm_num,
    get_cost_estimate_monotone_free_zero "deepseek-r1:14b" capDeepseek 500 2000
      rfl (by norm_num)⟩

/-! ## Module dependency resolver (`module_manager.py` lines 170-252)

`_calculate_execution_plan` builds `module_deps = {name: spec.dependencies}`
and runs an iterative topological layering over it.  The dictionary is
embedded as an association list; `remaining_modules` and
`completed_modules` are Python sets, embedded as duplicate-free lists
whose order stands for the set's (unspecified) iteration order — only the
iteration order influences the result.  The in-loop call
`_check_and_update_status` mutates module statuses only and feeds nothing
back into the phase computation, so it is not modelled here; the blocker
recording of `_break_dependency_cycle` is modelled separately in
`break_dependency_cycle`. -/

/-- A `module_deps` dictionary: module name → declared dependency names. -/
abbrev DepGraph := List (String × List String)

/-- The key set of `module_deps`. -/
def keys (md : DepGraph) : List String := md.map Prod.fst

/-- `module_deps[m]` (every looked-up module is a key, so the default is
never exercised in the modelled loops). -/
def depsOf (md : DepGraph) (m : String) : List String := (md.lookup m).getD []

/-- `dep in module_deps`. -/
def isKey (md : DepGraph) (d : String) : Bool := (keys md).contains d

/-- `valid_deps = [dep for dep in dependencies if dep in module_deps]`
(line 193). -/
def valid_deps (md : DepGraph) (m : String) : List String :=
  (depsOf md m).filter (fun d => isKey md d)

/-- `all(dep in completed_modules for dep in valid_deps)` (line 195). -/
def isReadyModule (md : DepGraph) (completed : List String) (m : String) : Bool :=
  (valid_deps md m).all (fun d => completed.contains d)

/-- The `ready_modules` list built by iterating `remaining_modules`
(lines 189-196). -/
def ready_modules (md : DepGraph) (remaining completed : List String) : List String :=
  remaining.filter (isReadyModule md completed)

/-- `pending_deps = [dep for dep in valid_deps if dep not in
completed_modules]` (line 237, and recomputed on lines 248-249 with the
same meaning). -/
def pending_deps (md : DepGraph) (completed : List String) (m : String) : List String :=
  (valid_deps md m).filter (fun d => !(completed.contains d))

/-- `len(pending_deps)` for one candidate module (line 239). -/
def pendingCount (md : DepGraph) (completed : List String) (m : String) : Nat :=
  (pending_deps md completed m).length

/-- The selection loop of `_break_dependency_cycle` (lines 231-241):
`best_candidate = None; min_pending_deps = inf; for module in remaining:
if len(pending) < min: update`.  The accumulator holds the current
`(best_candidate, min_pending_deps)`; `none` stands for the initial
`(None, inf)` state, which any first element replaces. -/
def breakCycleScan (md : DepGraph) (completed : List String) :
    List String → Option (String × Nat) → Option (String × Nat)
  | [], best => best
  | m :: rest, best =>
      match best with
      | none =>
          breakCycleScan md completed rest (some (m, pendingCount md completed m))
      | some (b, bc) =>
          breakCycleScan md completed rest
            (if pendingCount md completed m < bc then
              some (m, pendingCount md completed m)
            else some (b, bc))

/-- The candidate returned by `_break_dependency_cycle` (line 252). -/
def break_dependency_cycle_select (remaining : List String) (md : DepGraph)
    (completed : List String) : Option String :=
  (breakCycleScan md completed remaining none).map Prod.fst

/-- `_break_dependency_cycle` (lines 227-252): pick the candidate and, if
it is a registered module, extend its `blockers` by its still-pending
in-set dependencies. -/
def blockersUpdate (md : DepGraph) (completed : List String) (best : String)
    (ms : ModuleState) : ModuleState :=
  { ms with blockers := ms.blockers ++ pending_deps md completed best }

def break_dependency_cycle (mm : Modules) (remaining : List String)
    (md : DepGraph) (completed : List String) : Option String × Modules :=
  match break_dependency_cycle_select remaining md completed with
  | none => (none, mm)
  | some best =>
      if (mm.lookup best).isSome then
        (some best, updModule best (blockersUpdate md completed best) mm)
      else (some best, mm)

/-- One phase of the loop body (lines 189-206): the ready modules, or on a
cycle the selected single module, or as a last resort the first remaining
module (`next(iter(remaining_modules))`). -/
def planPhase (md : DepGraph) (remaining completed : List String) : List String :=
  if (ready_modules md remaining completed).isEmpty then
    match break_dependency_cycle_select remaining md completed with
    | some m => [m]
    | none => remaining.take 1
  else ready_modules md remaining completed

/-- The `while remaining_modules and iteration < max_iterations` loop
(lines 185-219): the fuel counts the iterations still allowed.  Each
emitted phase is nonempty (so the `if ready_modules:` guard of line 209
always holds in the loop), its members are removed from `remaining` (set
removal of distinct elements = filter, as `remaining` has no duplicates)
and added to `completed`. -/
def planLoop (md : DepGraph) : Nat → List String → List String → List (List String)
  | 0, _, _ => []
  | fuel + 1, remaining, completed =>
      if remaining.isEmpty then []
      else
        planPhase md remaining completed ::
          planLoop md fuel
            (remaining.filter
              (fun m => !((planPhase md remaining completed).contains m)))
            (completed ++ planPhase md remaining completed)

/-- `_calculate_execution_plan` (lines 170-225): the phase list, with
`max_iterations = len(module_deps) + 1` and the initial iteration order of
`set(module_deps.keys())` standing in as the key list. -/
def calculate_execution_plan (md : DepGraph) : List (List String) :=
  planLoop md (md.length + 1) (keys md) []

/-- Acyclicity of the in-set dependency graph, by its standard
characterization: some rank function places every module strictly above
each of its in-set dependencies. -/
def AcyclicRanked (md : DepGraph) : Prop :=
  ∃ rank : String → Nat,
    ∀ p ∈ md, ∀ d ∈ p.2, isKey md d = true → rank d < rank p.1

/-! ### Resolver helper lemmas -/

theorem lookup_mem_of_isKey (md : DepGraph) (m : String) (h : isKey md m = true) :
    ∃ ds, md.lookup m = some ds ∧ (m, ds) ∈ md := by
  induction md with
  | nil => simp [isKey, keys] at h
  | cons p rest ih =>
      obtain ⟨k, ds⟩ := p
      by_cases hk : m = k
      · subst hk
        refine ⟨ds, ?_, List.mem_cons_self _ _⟩
        simp [List.lookup]
      · have hb : (m == k) = false := by
          simp only [beq_eq_false_iff_ne, ne_eq]
          exact hk
        have h' : isKey rest m = true := by
          simp only [isKey, keys, List.map_cons, List.contains_cons] at h
          rcases Bool.or_eq_true_iff.mp h with h1 | h1
          · exact absurd (eq_of_beq h1) hk
          · exact h1
        obtain ⟨ds', hl, hmem⟩ := ih h'
        exact ⟨ds', by simp [List.lookup, hb, hl], List.mem_cons_of_mem _ hmem⟩

theorem valid_deps_spec (md : DepGraph) (m d : String) (hm : isKey md m = true)
    (hd : d ∈ valid_deps md m) :
    isKey md d = true ∧ ∃ ds, (m, ds) ∈ md ∧ d ∈ ds := by
  obtain ⟨ds, hl, hmem⟩ := lookup_mem_of_isKey md m hm
  have hvd : valid_deps md m = ds.filter (fun x => isKey md x) := by
    simp [valid_deps, depsOf, hl]
  rw [hvd] at hd
  have := List.mem_filter.mp hd
  exact ⟨this.2, ds, hmem, this.1⟩

theorem ready_modules_ne_nil (md : DepGraph) (rank : String → Nat)
    (hrank : ∀ p ∈ md, ∀ d ∈ p.2, isKey md d = true → rank d < rank p.1)
    (remaining completed : List String)
    (hne : remaining ≠ [])
    (hsub : ∀ m ∈ remaining, isKey md m = true)
    (hcov : ∀ d, isKey md d = true → d ∉ remaining → d ∈ completed) :
    ready_modules md remaining completed ≠ [] := by
  cases h : remaining.argmin rank with
  | none => exact absurd (List.argmin_eq_none.mp h) hne
  | some m =>
      have hmem : m ∈ remaining.argmin rank := by
        rw [h]
        rfl
      have hm : m ∈ remaining := List.argmin_mem hmem
      have hready : isReadyModule md completed m = true := by
        unfold isReadyModule
        rw [List.all_eq_true]
        intro d hd
        obtain ⟨hdk, ds, hds, hdds⟩ := valid_deps_spec md m d (hsub m hm) hd
        have hlt : rank d < rank m := hrank (m, ds) hds d hdds hdk
        have hdnot : d ∉ remaining := by
          intro hdin
          exact absurd (List.le_of_mem_argmin hdin hmem) (Nat.not_le_of_lt hlt)
        exact List.elem_iff.mpr (hcov d hdk hdnot)
      intro hnil
      have : m ∈ ready_modules md remaining completed :=
        List.mem_filter.mpr ⟨hm, hready⟩
      rw [hnil] at this
      exact List.not_mem_nil m this

theorem breakCycleScan_mem (md : DepGraph) (completed : List String) :
    ∀ (l : List String) (best : Option (String × Nat)) (res : String × Nat),
    breakCycleScan md completed l best = some res → best = some res ∨ res.1 ∈ l := by
  intro l
  induction l with
  | nil =>
      intro best res h
      exact Or.inl h
  | cons x rest ih =>
      intro best res h
      cases best with
      | none =>
          rcases ih _ _ h with h1 | h1
          · exact Or.inr (by simp [(Option.some_inj.mp h1 : _ = res).symm])
          · exact Or.inr (List.mem_cons_of_mem _ h1)
      | some p =>
          obtain ⟨b, bc⟩ := p
          simp only [breakCycleScan] at h
          by_cases hx : pendingCount md completed x < bc
          · rw [if_pos hx] at h
            rcases ih _ _ h with h1 | h1
            · exact Or.inr (by simp [(Option.some_inj.mp h1 : _ = res).symm])
            · exact Or.inr (List.mem_cons_of_mem _ h1)
          · rw [if_neg hx] at h
            rcases ih _ _ h with h1 | h1
            · exact Or.inl h1
            · exact Or.inr (List.mem_cons_of_mem _ h1)

theorem break_cycle_select_mem (remaining : List String) (md : DepGraph)
    (completed : List String) (m : String)
    (h : break_dependency_cycle_select remaining md completed = some m) :
    m ∈ remaining := by
  unfold break_dependency_cycle_select at h
  cases hs : breakCycleScan md completed remaining none with
  | none => rw [hs] at h; exact absurd h (by simp)
  | some res =>
      rw [hs] at h
      rcases breakCycleScan_mem md completed remaining none res hs with h1 | h1
      · exact absurd h1 (by simp)
      · have : res.1 = m := by
          simpa using h
        rw [this] at h1
        exact h1

theorem breakCycleScan_acc (md : DepGraph) (completed : List String) :
    ∀ (l : List String) (b : String),
    ∃ m, breakCycleScan md completed l (some (b, pendingCount md completed b))
        = some (m, pendingCount md completed m) ∧
      ((m = b ∧ ∀ x ∈ l,
          pendingCount md completed b ≤ pendingCount md completed x) ∨
       (∃ l₁ l₂, l = l₁ ++ m :: l₂ ∧
         pendingCount md completed m < pendingCount md completed b ∧
         (∀ x ∈ l₁, pendingCount md completed m < pendingCount md completed x) ∧
         (∀ x ∈ l₂, pendingCount md completed m ≤ pendingCount md completed x))) := by
  intro l
  induction l with
  | nil =>
      intro b
      exact ⟨b, rfl, Or.inl ⟨rfl, by simp⟩⟩
  | cons x rest ih =>
      intro b
      by_cases hx : pendingCount md completed x < pendingCount md completed b
      · have hstep : breakCycleScan md completed (x :: rest)
            (some (b, pendingCount md completed b))
            = breakCycleScan md completed rest
                (some (x, pendingCount md completed x)) := by
          simp only [breakCycleScan, if_pos hx]
        obtain ⟨m, hm, hcase⟩ := ih x
        refine ⟨m, hstep.trans hm, Or.inr ?_⟩
        rcases hcase with ⟨rfl, hall⟩ | ⟨l₁, l₂, heq, hlt, h₁, h₂⟩
        · exact ⟨[], rest, rfl, hx, by simp, hall⟩
        · refine ⟨x :: l₁, l₂, by rw [heq, List.cons_append], hlt.trans hx, ?_, h₂⟩
          intro y hy
          rcases List.mem_cons.mp hy with rfl | hy
          · exact hlt
          · exact h₁ y hy
      · have hstep : breakCycleScan md completed (x :: rest)
            (some (b, pendingCount md completed b))
            = breakCycleScan md completed rest
                (some (b, pendingCount md completed b)) := by
          simp only [breakCycleScan, if_neg hx]
        obtain ⟨m, hm, hcase⟩ := ih b
        refine ⟨m, hstep.trans hm, ?_⟩
        rcases hcase with ⟨rfl, hall⟩ | ⟨l₁, l₂, heq, hlt, h₁, h₂⟩
        · refine Or.inl ⟨rfl, ?_⟩
          intro y hy
          rcases List.mem_cons.mp hy with rfl | hy
          · exact Nat.le_of_not_lt hx
          · exact hall y hy
        · refine Or.inr ⟨x :: l₁, l₂, by rw [heq, List.cons_append], hlt, ?_, h₂⟩
          intro y hy
          rcases List.mem_cons.mp hy with rfl | hy
          · exact Nat.lt_of_lt_of_le hlt (Nat.le_of_not_lt hx)
          · exact h₁ y hy

theorem break_cycle_select_spec (remaining : List String) (md : DepGraph)
    (completed : List String) (hne : remaining ≠ []) :
    ∃ m l₁ l₂,
      break_dependency_cycle_select remaining md completed = some m ∧
      remaining = l₁ ++ m :: l₂ ∧
      (∀ x ∈ l₁, pendingCount md completed m < pendingCount md completed x) ∧
      (∀ x ∈ l₂, pendingCount md completed m ≤ pendingCount md completed x) := by
  cases remaining with
  | nil => exact absurd rfl hne
  | cons x rest =>
      have hstep : breakCycleScan md completed (x :: rest) none
          = breakCycleScan md completed rest
              (some (x, pendingCount md completed x)) := by
        simp only [breakCycleScan]
      obtain ⟨m, hm, hcase⟩ := breakCycleScan_acc md completed rest x
      have hsel : break_dependency_cycle_select (x :: rest) md completed = some m := by
        unfold break_dependency_cycle_select
        rw [hstep, hm]
        rfl
      rcases hcase with ⟨rfl, hall⟩ | ⟨l₁, l₂, heq, hlt, h₁, h₂⟩
      · exact ⟨m, [], rest, hsel, rfl, by simp, hall⟩
      · refine ⟨m, x :: l₁, l₂, hsel, by rw [heq, List.cons_append], ?_, h₂⟩
        intro y hy
        rcases List.mem_cons.mp hy with rfl | hy
        · exact hlt
        · exact h₁ y hy

theorem planPhase_subset (md : DepGraph) (remaining completed : List String) :
    ∀ x ∈ planPhase md remaining completed, x ∈ remaining := by
  intro x hx
  unfold planPhase at hx
  by_cases hre : (ready_modules md remaining completed).isEmpty
  · rw [if_pos hre] at hx
    cases hsel : break_dependency_cycle_select remaining md completed with
    | some m =>
        rw [hsel] at hx
        have hm := List.mem_singleton.mp hx
        subst hm
        exact break_cycle_select_mem remaining md completed x hsel
    | none =>
        rw [hsel] at hx
        exact List.take_subset _ _ hx
  · rw [if_neg hre] at hx
    exact (List.mem_filter.mp hx).1

theorem planPhase_nodup (md : DepGraph) (remaining completed : List String)
    (hr : remaining.Nodup) : (planPhase md remaining completed).Nodup := by
  unfold planPhase
  by_cases hre : (ready_modules md remaining completed).isEmpty
  · rw [if_pos hre]
    cases break_dependency_cycle_select remaining md completed with
    | some m => exact List.nodup_singleton m
    | none => exact hr.sublist (List.take_sublist _ _)
  · rw [if_neg hre]
    exact hr.filter _

theorem planPhase_ne_nil (md : DepGraph) (remaining completed : List String)
    (hne : remaining ≠ []) : planPhase md remaining completed ≠ [] := by
  unfold planPhase
  by_cases hre : (ready_modules md remaining completed).isEmpty
  · rw [if_pos hre]
    cases break_dependency_cycle_select remaining md completed with
    | some m => simp
    | none =>
        cases remaining with
        | nil => exact absurd rfl hne
        | cons y ys => simp [List.take]
  · rw [if_neg hre]
    exact fun h => hre (by rw [h]; rfl)

theorem phase_filter_perm (phase remaining : List String)
    (hr : remaining.Nodup) (hp : phase.Nodup)
    (hsub : ∀ x ∈ phase, x ∈ remaining) :
    List.Perm (phase ++ remaining.filter (fun m => !(phase.contains m)))
      remaining := by
  have h1 : List.Perm (remaining.filter (fun m => phase.contains m)) phase := by
    apply List.perm_of_nodup_nodup_toFinset_eq (hr.filter _) hp
    ext a
    simp only [List.mem_toFinset, List.mem_filter]
    constructor
    · intro ha
      exact List.elem_iff.mp ha.2
    · intro ha
      exact ⟨hsub a ha, List.elem_iff.mpr ha⟩
  exact (h1.symm.append_right _).trans (List.filter_append_perm _ remaining)

theorem filtered_length_lt (phase remaining : List String)
    (hpne : phase ≠ []) (hsub : ∀ x ∈ phase, x ∈ remaining) :
    (remaining.filter (fun m => !(phase.contains m))).length < remaining.length := by
  obtain ⟨y, hy⟩ := List.exists_mem_of_ne_nil phase hpne
  have hyr : y ∈ remaining := hsub y hy
  have hcont : phase.contains y = true := List.elem_iff.mpr hy
  apply Nat.lt_of_le_of_ne (List.length_filter_le _ _)
  intro heq
  have htrue := List.filter_length_eq_length.mp heq y hyr
  simp only [Bool.not_eq_true'] at htrue
  rw [htrue] at hcont
  exact Bool.false_ne_true hcont

theorem planLoop_succ_ne (md : DepGraph) (fuel : Nat)
    (remaining completed : List String) (hne : remaining ≠ []) :
    planLoop md (fuel + 1) remaining completed =
      planPhase md remaining completed ::
        planLoop md fuel
          (remaining.filter
            (fun m => !((planPhase md remaining completed).contains m)))
          (completed ++ planPhase md remaining completed) := by
  have hre : remaining.isEmpty = false := by
    cases remaining with
    | nil => exact absurd rfl hne
    | cons y ys => rfl
  simp [planLoop, hre]

theorem planLoop_perm (md : DepGraph) :
    ∀ (fuel : Nat) (remaining completed : List String), remaining.Nodup →
      remaining.length ≤ fuel →
      List.Perm (planLoop md fuel remaining completed).flatten remaining := by
  intro fuel
  induction fuel with
  | zero =>
      intro remaining completed hr hf
      have h0 : remaining = [] := List.length_eq_zero.mp (Nat.le_zero.mp hf)
      subst h0
      simp [planLoop]
  | succ fuel ih =>
      intro remaining completed hr hf
      by_cases hne : remaining = []
      · subst hne
        simp [planLoop]
      · rw [planLoop_succ_ne md fuel remaining completed hne]
        have hsub := planPhase_subset md remaining completed
        have hpnd := planPhase_nodup md remaining completed hr
        have hpne := planPhase_ne_nil md remaining completed hne
        have hlt := filtered_length_lt (planPhase md remaining completed)
          remaining hpne hsub
        have hrest := ih
          (remaining.filter
            (fun m => !((planPhase md remaining completed).contains m)))
          (completed ++ planPhase md remaining completed)
          (hr.filter _)
          (Nat.le_of_lt_succ (Nat.lt_of_lt_of_le hlt hf))
        rw [List.flatten_cons]
        exact (List.Perm.append_left _ hrest).trans
          (phase_filter_perm _ remaining hr hpnd hsub)

theorem planLoop_length (md : DepGraph) :
    ∀ (fuel : Nat) (remaining completed : List String),
      (planLoop md fuel remaining completed).length ≤ remaining.length := by
  intro fuel
  induction fuel with
  | zero =>
      intro remaining completed
      simp [planLoop]
  | succ fuel ih =>
      intro remaining completed
      by_cases hne : remaining = []
      · subst hne
        simp [planLoop]
      · rw [planLoop_succ_ne md fuel remaining completed hne]
        have hlt := filtered_length_lt (planPhase md remaining completed)
          remaining (planPhase_ne_nil md remaining completed hne)
          (planPhase_subset md remaining completed)
        have h1 := ih
          (remaining.filter
            (fun m => !((planPhase md remaining completed).contains m)))
          (completed ++ planPhase md remaining completed)
        simp only [List.length_cons]
        exact Nat.lt_of_le_of_lt h1 hlt

theorem planPhase_of_ready (md : DepGraph) (remaining completed : List String)
    (hready : ready_modules md remaining completed ≠ []) :
    planPhase md remaining completed = ready_modules md remaining completed := by
  unfold planPhase
  rw [if_neg (fun h => hready (List.isEmpty_iff.mp h))]

theorem mem_ready_deps_completed (md : DepGraph) (remaining completed : List String)
    (m : String) (hm : m ∈ ready_modules md remaining completed) :
    ∀ d ∈ valid_deps md m, d ∈ completed := by
  intro d hd
  have h2 := (List.mem_filter.mp hm).2
  unfold isReadyModule at h2
  rw [List.all_eq_true] at h2
  exact List.elem_iff.mp (h2 d hd)

theorem planLoop_deps_earlier (md : DepGraph) (rank : String → Nat)
    (hrank : ∀ p ∈ md, ∀ d ∈ p.2, isKey md d = true → rank d < rank p.1) :
    ∀ (fuel : Nat) (remaining completed : List String),
      remaining.Nodup →
      (∀ m ∈ remaining, isKey md m = true) →
      (∀ d, isKey md d = true → d ∉ remaining → d ∈ completed) →
      remaining.length ≤ fuel →
      ∀ (i : Nat), ∀ m ∈ (planLoop md fuel remaining completed).getD i [],
        ∀ d ∈ valid_deps md m,
          d ∈ completed ∨
          ∃ j, j < i ∧ d ∈ (planLoop md fuel remaining completed).getD j [] := by
  intro fuel
  induction fuel with
  | zero =>
      intro remaining completed hr hsub hcov hf i m hm d hd
      simp [planLoop] at hm
  | succ fuel ih =>
      intro remaining completed hr hsub hcov hf i m hm d hd
      by_cases hne : remaining = []
      · subst hne
        simp [planLoop] at hm
      · have hready : ready_modules md remaining completed ≠ [] :=
          ready_modules_ne_nil md rank hrank remaining completed hne hsub hcov
        have hphase := planPhase_of_ready md remaining completed hready
        rw [planLoop_succ_ne md fuel remaining completed hne] at hm ⊢
        cases i with
        | zero =>
            simp only [List.getD_cons_zero] at hm
            rw [hphase] at hm
            exact Or.inl (mem_ready_deps_completed md remaining completed m hm d hd)
        | succ i =>
            simp only [List.getD_cons_succ] at hm
            have hsub' : ∀ x ∈ remaining.filter
                (fun x => !((planPhase md remaining completed).contains x)),
                isKey md x = true :=
              fun x hx => hsub x (List.mem_filter.mp hx).1
            have hcov' : ∀ d', isKey md d' = true →
                d' ∉ remaining.filter
                  (fun x => !((planPhase md remaining completed).contains x)) →
                d' ∈ completed ++ planPhase md remaining completed := by
              intro d' hd' hnotin
              by_cases hdr : d' ∈ remaining
              · have : ¬ ((fun x => !((planPhase md remaining completed).contains x)) d'
                    = true) := by
                  intro hp
                  exact hnotin (List.mem_filter.mpr ⟨hdr, hp⟩)
                have hmem' : d' ∈ planPhase md remaining completed := by
                  by_contra hc
                  apply this
                  have hcf : (planPhase md remaining completed).contains d' = false := by
                    rw [Bool.eq_false_iff]
                    intro ht
                    exact hc (List.elem_iff.mp ht)
                  simp only [Bool.not_eq_true']
                  exact hcf
                exact List.mem_append.mpr (Or.inr hmem')
              · exact List.mem_append.mpr (Or.inl (hcov d' hd' hdr))
            have hlt := filtered_length_lt (planPhase md remaining completed)
              remaining (planPhase_ne_nil md remaining completed hne)
              (planPhase_subset md remaining completed)
            have hres := ih
              (remaining.filter
                (fun x => !((planPhase md remaining completed).contains x)))
              (completed ++ planPhase md remaining completed)
              (hr.filter _) hsub' hcov'
              (Nat.le_of_lt_succ (Nat.lt_of_lt_of_le hlt hf))
              i m hm d hd
            rcases hres with hres | ⟨j, hj, hdj⟩
            · rcases List.mem_append.mp hres with hc | hp
              · exact Or.inl hc
              · exact Or.inr ⟨0, Nat.succ_pos i, by simpa using hp⟩
            · exact Or.inr ⟨j + 1, Nat.succ_lt_succ hj, by simpa using hdj⟩

theorem planLoop_phase_shape (md : DepGraph) :
    ∀ (fuel : Nat) (remaining completed : List String) (i : Nat),
      (∀ m ∈ (planLoop md fuel remaining completed).getD i [],
        ∀ d ∈ valid_deps md m,
          d ∈ completed ∨
          d ∈ ((planLoop md fuel remaining completed).take i).flatten)
      ∨ ((planLoop md fuel remaining completed).getD i []).length = 1 := by
  intro fuel
  induction fuel with
  | zero =>
      intro remaining completed i
      refine Or.inl ?_
      intro m hm
      simp [planLoop] at hm
  | succ fuel ih =>
      intro remaining completed i
      by_cases hne : remaining = []
      · subst hne
        refine Or.inl ?_
        intro m hm
        simp [planLoop] at hm
      · rw [planLoop_succ_ne md fuel remaining completed hne]
        cases i with
        | zero =>
            by_cases hready : ready_modules md remaining completed = []
            · refine Or.inr ?_
              simp only [List.getD_cons_zero]
              unfold planPhase
              rw [if_pos (List.isEmpty_iff.mpr hready)]
              cases hsel : break_dependency_cycle_select remaining md completed with
              | some m => rfl
              | none =>
                  cases remaining with
                  | nil => exact absurd rfl hne
                  | cons y ys => rfl
            · refine Or.inl ?_
              intro m hm d hd
              simp only [List.getD_cons_zero] at hm
              rw [planPhase_of_ready md remaining completed hready] at hm
              exact Or.inl (mem_ready_deps_completed md remaining completed m hm d hd)
        | succ i =>
            rcases ih
              (remaining.filter
                (fun x => !((planPhase md remaining completed).contains x)))
              (completed ++ planPhase md remaining completed) i with hcase | hcase
            · refine Or.inl ?_
              intro m hm d hd
              simp only [List.getD_cons_succ] at hm
              rcases hcase m hm d hd with hres | hres
              · rcases List.mem_append.mp hres with hc | hp
                · exact Or.inl hc
                · refine Or.inr ?_
                  rw [List.take_succ_cons, List.flatten_cons]
                  exact List.mem_append.mpr (Or.inl hp)
              · refine Or.inr ?_
                rw [List.take_succ_cons, List.flatten_cons]
                exact List.mem_append.mpr (Or.inr hres)
            · refine Or.inr ?_
              simpa using hcase

/-! ### Resolver theorems (claims C2, C3, C8) -/

/-- Unfolding equation for `break_dependency_cycle` when a candidate is
selected. -/
theorem break_dependency_cycle_eq_some (mm : Modules) (remaining : List String)
    (md : DepGraph) (completed : List String) (m : String)
    (hsel : break_dependency_cycle_select remaining md completed = some m) :
    break_dependency_cycle mm remaining md completed =
      if (mm.lookup m).isSome then
        (some m, updModule m (blockersUpdate md completed m) mm)
      else (some m, mm) := by
  unfold break_dependency_cycle
  rw [hsel]

/-- C2: on a module set whose in-set dependency graph is acyclic, the
computed phases are a partition of the module set (the concatenation of
the phases is a permutation of the duplicate-free key list, so every
module appears in exactly one phase), and every in-set dependency of a
module placed in phase `i` lies in some strictly earlier phase `j < i`. -/
theorem calculate_execution_plan_acyclic (md : DepGraph)
    (hkeys : (keys md).Nodup) (hacyc : AcyclicRanked md) :
    List.Perm (calculate_execution_plan md).flatten (keys md) ∧
    (∀ (i : Nat), ∀ m ∈ (calculate_execution_plan md).getD i [],
      ∀ d ∈ valid_deps md m,
        ∃ j, j < i ∧ d ∈ (calculate_execution_plan md).getD j []) := by
  obtain ⟨rank, hrank⟩ := hacyc
  have hlen : (keys md).length ≤ md.length + 1 := by
    simp only [keys, List.length_map]
    exact Nat.le_succ _
  have hsub : ∀ m ∈ keys md, isKey md m = true :=
    fun m hm => List.elem_iff.mpr hm
  have hcov : ∀ d, isKey md d = true → d ∉ keys md → d ∈ ([] : List String) :=
    fun d hd hnot => absurd (List.elem_iff.mp hd) hnot
  constructor
  · exact planLoop_perm md (md.length + 1) (keys md) [] hkeys hlen
  · intro i m hm d hd
    have h := planLoop_deps_earlier md rank hrank (md.length + 1) (keys md) []
      hkeys hsub hcov hlen i m hm d hd
    rcases h with h | h
    · exact absurd h (List.not_mem_nil d)
    · exact h

/-- A linear three-module chain, used to instantiate the acyclic
resolver theorem. -/
def mdLinear : DepGraph := [("a", []), ("b", ["a"]), ("c", ["b"])]

/-- C2 witness: the acyclic resolver theorem at the concrete chain
`a ← b ← c`. -/
theorem calculate_execution_plan_acyclic_witness :
    (keys mdLinear).Nodup ∧ AcyclicRanked mdLinear ∧
    (List.Perm (calculate_execution_plan mdLinear).flatten (keys mdLinear) ∧
     (∀ (i : Nat), ∀ m ∈ (calculate_execution_plan mdLinear).getD i [],
       ∀ d ∈ valid_deps mdLinear m,
         ∃ j, j < i ∧ d ∈ (calculate_execution_plan mdLinear).getD j [])) :=
  have h1 : (keys mdLinear).Nodup := by decide
  have h2 : AcyclicRanked mdLinear :=
    ⟨fun s => if s = "a" then 0 else if s = "b" then 1 else 2, by decide⟩
  ⟨h1, h2, calculate_execution_plan_acyclic mdLinear h1 h2⟩

/-- C3: on any module set — in particular one containing a dependency
cycle — the loop needs at most `|modules| + 1` iterations (one phase per
iteration), still produces a full partition of the module set, and every
phase that is not justified by earlier phases (a forced cycle-break
phase) contains exactly one module. -/
theorem calculate_execution_plan_cyclic (md : DepGraph)
    (hkeys : (keys md).Nodup) (hcyc : ¬ AcyclicRanked md) :
    List.Perm (calculate_execution_plan md).flatten (keys md) ∧
    (calculate_execution_plan md).length ≤ md.length + 1 ∧
    (∀ (i : Nat),
      (∀ m ∈ (calculate_execution_plan md).getD i [],
        ∀ d ∈ valid_deps md m,
          d ∈ ((calculate_execution_plan md).take i).flatten)
      ∨ ((calculate_execution_plan md).getD i []).length = 1) := by
  have hlen : (keys md).length ≤ md.length + 1 := by
    simp only [keys, List.length_map]
    exact Nat.le_succ _
  refine ⟨planLoop_perm md (md.length + 1) (keys md) [] hkeys hlen, ?_, ?_⟩
  · have h := planLoop_length md (md.length + 1) (keys md) []
    calc (calculate_execution_plan md).length
        ≤ (keys md).length := h
      _ ≤ md.length + 1 := hlen
  · intro i
    rcases planLoop_phase_shape md (md.length + 1) (keys md) [] i with h | h
    · refine Or.inl ?_
      intro m hm d hd
      rcases h m hm d hd with h1 | h1
      · exact absurd h1 (List.not_mem_nil d)
      · exact h1
    · exact Or.inr h

/-- A two-module cycle plus one independent module. -/
def mdCyclic : DepGraph := [("a", ["b"]), ("b", ["a"]), ("c", [])]

/-- C3 witness: the cyclic resolver theorem at the concrete set with the
cycle `a ↔ b` and the free module `c`. -/
theorem calculate_execution_plan_cyclic_witness :
    (keys mdCyclic).Nodup ∧ ¬ AcyclicRanked mdCyclic ∧
    (List.Perm (calculate_execution_plan mdCyclic).flatten (keys mdCyclic) ∧
     (calculate_execution_plan mdCyclic).length ≤ mdCyclic.length + 1 ∧
     (∀ (i : Nat),
       (∀ m ∈ (calculate_execution_plan mdCyclic).getD i [],
         ∀ d ∈ valid_deps mdCyclic m,
           d ∈ ((calculate_execution_plan mdCyclic).take i).flatten)
       ∨ ((calculate_execution_plan mdCyclic).getD i []).length = 1)) :=
  have h1 : (keys mdCyclic).Nodup := by decide
  have h2 : ¬ AcyclicRanked mdCyclic := by
    rintro ⟨rank, h⟩
    have hab : rank "b" < rank "a" :=
      h ("a", ["b"]) (by simp [mdCyclic]) "b" (by simp) (by decide)
    have hba : rank "a" < rank "b" :=
      h ("b", ["a"]) (by simp [mdCyclic]) "a" (by simp) (by decide)
    omega
  ⟨h1, h2, calculate_execution_plan_cyclic mdCyclic h1 h2⟩

/-- The bare two-module cycle used for the tie-break analysis. -/
def mdCycle2 : DepGraph := [("a", ["b"]), ("b", ["a"])]

/-- C8 counterexample: over the cycle `a ↔ b`, where both modules have
exactly one unmet in-set dependency (a tie), iterating the remaining set
in the order `["b", "a"]` — a possible iteration order of the Python set,
whose order is hash-dependent, not alphabetical — makes
`_break_dependency_cycle` select `"b"` although name ordering would
select `"a"`.  The selection is therefore not deterministic by name. -/
theorem break_cycle_tie_not_by_name_counterexample :
    break_dependency_cycle_select ["b", "a"] mdCycle2 [] = some "b" ∧
    pendingCount mdCycle2 [] "a" = pendingCount mdCycle2 [] "b" ∧
    "a" < "b" := by
  exact ⟨rfl, rfl, String.lt_iff_toList_lt.mpr (by decide)⟩

/-- C8 (amended): when no module is ready, the cycle breaker selects the
first module in set-iteration order whose number of unmet in-set
dependencies is minimal — every earlier module has strictly more unmet
dependencies and every later one at least as many (ties are broken by
iteration order, not by name) — and extends the selected module's
`blockers` with its still-unmet in-set dependencies. -/
theorem break_dependency_cycle_first_minimal (mm : Modules)
    (remaining : List String) (md : DepGraph) (completed : List String)
    (hnoready : ready_modules md remaining completed = [])
    (hne : remaining ≠ []) :
    ∃ m l₁ l₂,
      (break_dependency_cycle mm remaining md completed).1 = some m ∧
      remaining = l₁ ++ m :: l₂ ∧
      (∀ x ∈ l₁, pendingCount md completed m < pendingCount md completed x) ∧
      (∀ x ∈ l₂, pendingCount md completed m ≤ pendingCount md completed x) ∧
      (∀ ms, mm.lookup m = some ms →
        ((break_dependency_cycle mm remaining md completed).2.lookup m).map
            ModuleState.blockers
          = some (ms.blockers ++ pending_deps md completed m)) := by
  obtain ⟨m, l₁, l₂, hsel, heq, h₁, h₂⟩ :=
    break_cycle_select_spec remaining md completed hne
  refine ⟨m, l₁, l₂, ?_, heq, h₁, h₂, ?_⟩
  · rw [break_dependency_cycle_eq_some mm remaining md completed m hsel]
    by_cases hl : (mm.lookup m).isSome
    · rw [if_pos hl]
    · rw [if_neg hl]
  · intro ms hms
    rw [break_dependency_cycle_eq_some mm remaining md completed m hsel]
    rw [if_pos (by rw [hms]; rfl)]
    show ((updModule m (blockersUpdate md completed m) mm).lookup m).map
        ModuleState.blockers = _
    rw [lookup_updModule_self, hms]
    rfl

/-- A manager registering the cycle module `"b"`. -/
def mmCycleB : Modules :=
  [("b", { name := "b",
           spec := { specBackend with name := "b", dependencies := ["a"] },
           status := ModuleStatus.planned })]

/-- C8 witness: the amended cycle-break theorem at the concrete cycle
`a ↔ b` with iteration order `["b", "a"]` and no ready module. -/
theorem break_dependency_cycle_first_minimal_witness :
    ready_modules mdCycle2 ["b", "a"] [] = [] ∧
    (["b", "a"] : List String) ≠ [] ∧
    ∃ m l₁ l₂,
      (break_dependency_cycle mmCycleB ["b", "a"] mdCycle2 []).1 = some m ∧
      (["b", "a"] : List String) = l₁ ++ m :: l₂ ∧
      (∀ x ∈ l₁, pendingCount mdCycle2 [] m < pendingCount mdCycle2 [] x) ∧
      (∀ x ∈ l₂, pendingCount mdCycle2 [] m ≤ pendingCount mdCycle2 [] x) ∧
      (∀ ms, mmCycleB.lookup m = some ms →
        ((break_dependency_cycle mmCycleB ["b", "a"] mdCycle2 []).2.lookup m).map
            ModuleState.blockers
          = some (ms.blockers ++ pending_deps mdCycle2 [] m)) :=
  ⟨rfl, by simp,
    break_dependency_cycle_first_minimal mmCycleB ["b", "a"] mdCycle2 [] rfl
      (by simp)⟩

/-! ## Task orchestrator (`core/task_orchestrator.py`)

`AgentConfig` (`agent_spawner.py` lines 19-30) carries several
prompt-construction fields (name, specialization, model, temperature,
personality, expertise, tools) that no embedded operation reads; only
`id`, `role` and `status` are kept.  Task ids embed
`int(datetime.now().timestamp())`, supplied here as a `ts` parameter. -/

structure AgentConfig where
  id : String
  role : String
  status : String := "idle"
  deriving DecidableEq, Repr

/-- `AgentTask` dataclass (`agent_spawner.py` lines 34-47); the
`created_at`/`started_at`/`completed_at` timestamps are omitted, `result`
holds the produced payload and `error` the exception text. -/
structure AgentTask where
  id : String
  agent_id : String
  module_name : String
  task_type : String
  description : String
  priority : Int
  dependencies : List String
  status : String := "pending"
  result : Option String := none
  error : Option String := none
  deriving DecidableEq, Repr

/-- The `'backend'` entry of `task_sequences`
(`task_orchestrator.py` lines 123-128). -/
def backend_sequence : List (String × String) :=
  [("design", "Design API structure and database schema"),
   ("implement", "Implement core functionality and endpoints"),
   ("test", "Create and run unit tests"),
   ("review", "Code review and optimization")]

/-- The `task_sequences` table (`task_orchestrator.py` lines 122-161). -/
def task_sequences : List (String × List (String × String)) :=
  [("backend", backend_sequence),
   ("frontend",
    [("design", "Design component structure and user flows"),
     ("implement", "Implement UI components and state management"),
     ("test", "Create and run component tests"),
     ("review", "UI/UX review and optimization")]),
   ("fullstack",
    [("design", "Design full-stack architecture"),
     ("implement_backend", "Implement backend functionality"),
     ("implement_frontend", "Implement frontend components"),
     ("integrate", "Integrate frontend with backend"),
     ("test", "End-to-end testing"),
     ("review", "Full-stack review")]),
   ("mobile",
    [("design", "Design mobile app architecture and UI"),
     ("implement", "Implement mobile app features"),
     ("test", "Mobile app testing on devices"),
     ("review", "App store readiness review")]),
   ("qa",
    [("plan", "Create comprehensive test plan"),
     ("implement", "Implement automated tests"),
     ("execute", "Execute test suites"),
     ("report", "Generate test reports and recommendations")]),
   ("deploy",
    [("plan", "Plan deployment strategy"),
     ("configure", "Configure infrastructure and CI/CD"),
     ("deploy", "Deploy to staging and production"),
     ("monitor", "Setup monitoring and alerts")])]

/-- `task_sequences.get(module_type, task_sequences['backend'])`
(line 165). -/
def sequence_for (module_type : String) : List (String × String) :=
  (task_sequences.lookup module_type).getD backend_sequence

/-- `_determine_module_type` (lines 191-208). -/
def determine_module_type (agents : List AgentConfig) : String :=
  let roles := agents.map (fun a => a.role)
  if roles.contains "qa" then "qa"
  else if roles.contains "devops" then "deploy"
  else if roles.contains "mobile" then "mobile"
  else if roles.contains "fullstack" then "fullstack"
  else if roles.contains "frontend" && roles.contains "backend" then "fullstack"
  else if roles.contains "frontend" then "frontend"
  else "backend"

/-- The `task_role_mapping` table with its `['backend']` default
(lines 214-230). -/
def task_role_mapping (task_type : String) : List String :=
  (([("design", ["backend", "frontend", "fullstack"]),
     ("implement", ["backend", "frontend", "fullstack"]),
     ("implement_backend", ["backend", "fullstack"]),
     ("implement_frontend", ["frontend", "fullstack"]),
     ("integrate", ["fullstack", "backend"]),
     ("test", ["qa", "backend", "frontend"]),
     ("review", ["backend", "frontend", "fullstack"]),
     ("plan", ["qa", "devops"]),
     ("configure", ["devops"]),
     ("deploy", ["devops"]),
     ("monitor", ["devops"]),
     ("execute", ["qa"]),
     ("report", ["qa"])] : List (String × List String)).lookup
    task_type).getD ["backend"]

/-- The preferred-role double loop of `_assign_agent_to_task`
(lines 232-236): first idle agent of the first preferred role that has
one. -/
def findPreferred (agents : List AgentConfig) : List String → Option AgentConfig
  | [] => none
  | role :: rest =>
      match agents.find? (fun a => a.role == role && a.status == "idle") with
      | some a => some a
      | none => findPreferred agents rest

/-- `_assign_agent_to_task` (lines 210-243): preferred roles first, then
any idle agent, else `None`. -/
def assign_agent_to_task (task : AgentTask) (agents : List AgentConfig) :
    Option AgentConfig :=
  match findPreferred agents (task_role_mapping task.task_type) with
  | some a => some a
  | none => agents.find? (fun a => a.status == "idle")

/-- The `AgentTask(...)` construction of lines 169-178. -/
def mkPlanTask (module_name : String) (ts i : Nat)
    (task_type description : String) : AgentTask :=
  { id := module_name ++ "_" ++ task_type ++ "_" ++ toString ts ++ "_"
      ++ toString i
    agent_id := ""
    module_name := module_name
    task_type := task_type
    description := module_name ++ ": " ++ description
    priority := 10 - (i : Int)
    dependencies := [] }

/-- The task-creation loop of `_create_module_task_plan` (lines 168-184):
one `AgentTask` per sequence entry with `priority = 10 - i`, appended to
the plan only when `_assign_agent_to_task` found an agent (`if
assigned_agent:`); an unassigned task is dropped. -/
def buildTasks (module_name : String) (agents : List AgentConfig) (ts : Nat) :
    List (String × String) → Nat → List AgentTask
  | [], _ => []
  | (task_type, description) :: rest, i =>
      match assign_agent_to_task (mkPlanTask module_name ts i task_type description)
          agents with
      | some agent =>
          { mkPlanTask module_name ts i task_type description with
              agent_id := agent.id } ::
            buildTasks module_name agents ts rest (i + 1)
      | none => buildTasks module_name agents ts rest (i + 1)

/-- Generic Python-dict insertion (replace in place or append). -/
def setAssoc {β : Type} (k : String) (v : β) :
    List (String × β) → List (String × β)
  | [] => [(k, v)]
  | (k', v') :: rest =>
      cond (k' == k) ((k, v) :: rest) ((k', v') :: setAssoc k v rest)

/-- `task_by_type = {task.task_type: task for task in tasks}` (line 249):
a later task of the same type overwrites an earlier one. -/
def task_by_type (tasks : List AgentTask) : List (String × AgentTask) :=
  tasks.foldl (fun d t => setAssoc t.task_type t d) []

/-- The `dependency_rules` table (lines 252-264), defaulting to `[]`. -/
def dependency_rules (task_type : String) : List String :=
  (([("implement", ["design"]),
     ("implement_backend", ["design"]),
     ("implement_frontend", ["design"]),
     ("integrate", ["implement_backend", "implement_frontend"]),
     ("test", ["implement", "implement_backend", "implement_frontend",
               "integrate"]),
     ("review", ["test"]),
     ("configure", ["plan"]),
     ("deploy", ["configure"]),
     ("monitor", ["deploy"]),
     ("execute", ["implement"]),
     ("report", ["execute"])] : List (String × List String)).lookup
    task_type).getD []

/-- `_configure_task_dependencies` (lines 245-270): append to each task's
dependency list the id of the plan task of every rule dependency type
present in the plan. -/
def configure_task_dependencies (tasks : List AgentTask) : List AgentTask :=
  tasks.map (fun t =>
    { t with
      dependencies := t.dependencies ++
        (dependency_rules t.task_type).filterMap
          (fun dep_type => ((task_by_type tasks).lookup dep_type).map
            (fun d => d.id)) })

/-- `_create_module_task_plan` (lines 115-189). -/
def create_module_task_plan (module_name : String) (agents : List AgentConfig)
    (ts : Nat) : List AgentTask :=
  configure_task_dependencies
    (buildTasks module_name agents ts
      (sequence_for (determine_module_type agents)) 0)

/-! ### Task-plan builder theorems (claims C4, C5) -/

/-- An idle backend agent. -/
def agentBackend : AgentConfig := { id := "ag1", role := "backend" }

/-- A busy (non-idle) backend agent. -/
def agentBusy : AgentConfig := { id := "ag2", role := "backend", status := "working" }

/-- C4 counterexample: for a backend module (sequence length 4) the first
emitted task has priority 10, not 4 — priorities are `10 - i` regardless
of the sequence length. -/
theorem priority_not_sequence_minus_index_counterexample :
    ((create_module_task_plan "m" [agentBackend] 0).map (fun t => t.priority))
      = [10, 9, 8, 7] ∧
    (sequence_for (determine_module_type [agentBackend])).length = 4 ∧
    (10 : Int) ≠ 4 :=
  ⟨rfl, rfl, by decide⟩

theorem assign_agent_isSome (task : AgentTask) (agents : List AgentConfig)
    (hidle : ∃ a ∈ agents, a.status = "idle") :
    (assign_agent_to_task task agents).isSome = true := by
  unfold assign_agent_to_task
  cases hp : findPreferred agents (task_role_mapping task.task_type) with
  | some a => rfl
  | none =>
      obtain ⟨a, ha, hst⟩ := hidle
      show (agents.find? (fun a => a.status == "idle")).isSome = true
      rw [List.find?_isSome]
      exact ⟨a, ha, by simp [hst]⟩

theorem buildTasks_priorities (module_name : String) (agents : List AgentConfig)
    (ts : Nat)
    (hsome : ∀ task : AgentTask, (assign_agent_to_task task agents).isSome = true) :
    ∀ (seq : List (String × String)) (i : Nat),
    (buildTasks module_name agents ts seq i).map (fun t => t.priority)
      = (List.range seq.length).map (fun j => (10 : Int) - ((i + j : Nat) : Int)) := by
  intro seq
  induction seq with
  | nil => intro i; rfl
  | cons p rest ih =>
      intro i
      obtain ⟨tt, desc⟩ := p
      cases haa : assign_agent_to_task (mkPlanTask module_name ts i tt desc) agents with
      | none =>
          have := hsome (mkPlanTask module_name ts i tt desc)
          rw [haa] at this
          exact absurd this (by simp)
      | some a =>
          have hstep : buildTasks module_name agents ts ((tt, desc) :: rest) i
              = { mkPlanTask module_name ts i tt desc with agent_id := a.id } ::
                  buildTasks module_name agents ts rest (i + 1) := by
            simp only [buildTasks]
            rw [haa]
          rw [hstep, List.map_cons, ih (i + 1), List.length_cons,
            List.range_succ_eq_map, List.map_cons, List.map_map]
          refine congrArg₂ List.cons ?_ ?_
          · show (10 : Int) - (i : Int) = (10 : Int) - ((i + 0 : Nat) : Int)
            norm_num
          · apply List.map_congr_left
            intro j hj
            simp only [Function.comp_apply]
            congr 1
            push_cast
            ring

/-- The status string a finished task receives in `_execute_task_plan`
(lines 311-317). -/
def statusOf : Except String String → String
  | Except.error _ => "failed"
  | Except.ok _ => "completed"

/-- The per-task effect of a round of `_execute_task_plan`
(lines 308-320): a failed execution sets `status = "failed"` and `error`;
a successful one sets `status = "completed"` and `result`.  `outcome`
abstracts `_execute_single_task` (the generation-service collaborator):
it maps a task id to the produced payload or the raised exception. -/
def runTask (outcome : String → Except String String) (t : AgentTask) :
    AgentTask :=
  match outcome t.id with
  | Except.error e => { t with status := "failed", error := some e }
  | Except.ok r => { t with status := "completed", result := some r }

/-- The readiness test of lines 281-285: not yet in `completed_tasks` and
all dependencies in `completed_tasks`. -/
def readyPred (completed : List String) (t : AgentTask) : Bool :=
  !(completed.contains t.id) &&
    t.dependencies.all (fun d => completed.contains d)

/-- `batch_tasks = ready_tasks[:min(len(ready_tasks),
max_concurrent_tasks)]` (lines 295-296). -/
def batchOf (max_concurrent_tasks : Nat) (ready : List AgentTask) :
    List AgentTask :=
  ready.take (min ready.length max_concurrent_tasks)

/-- The `while len(completed_tasks) < len(tasks)` loop of
`_execute_task_plan` (lines 272-328), returning the mutated task objects,
the `completed_tasks` id set (in insertion order) and the `results` list.
Note lines 308-320 add the task id to `completed_tasks` in the failure
branch as well.  Task objects are mutated in place; the embedding rewrites
the list entry with the matching id (task ids are unique within a plan). -/
def executeLoop (outcome : String → Except String String)
    (max_concurrent_tasks : Nat) :
    Nat → List AgentTask → List String → List String →
      List AgentTask × List String × List String
  | 0, tasks, completed, results => (tasks, completed, results)
  | fuel + 1, tasks, completed, results =>
      if completed.length < tasks.length then
        if (tasks.filter (readyPred completed)).isEmpty then
          (tasks, completed, results)
        else
          executeLoop outcome max_concurrent_tasks fuel
            (tasks.map (fun t =>
              if (batchOf max_concurrent_tasks
                    (tasks.filter (readyPred completed))).any
                  (fun b => b.id == t.id) then
                runTask outcome t
              else t))
            (completed ++
              (batchOf max_concurrent_tasks
                (tasks.filter (readyPred completed))).map (fun b => b.id))
            (results ++
              (batchOf max_concurrent_tasks
                (tasks.filter (readyPred completed))).filterMap
                (fun b =>
                  match outcome b.id with
                  | Except.ok r => some r
                  | Except.error _ => none))
      else (tasks, completed, results)

/-- `_execute_task_plan` with the orchestrator's
`max_concurrent_tasks = 10`; the loop makes progress every round, so
`tasks.length` rounds always suffice. -/
def execute_task_plan (outcome : String → Except String String)
    (tasks : List AgentTask) : List AgentTask × List String × List String :=
  executeLoop outcome 10 tasks.length tasks [] []

theorem configure_preserves_priority (tasks : List AgentTask) :
    (configure_task_dependencies tasks).map (fun t => t.priority)
      = tasks.map (fun t => t.priority) := by
  unfold configure_task_dependencies
  rw [List.map_map]
  rfl

/-- C4 (amended): whenever every task can be assigned (e.g. some agent is
idle), the builder emits one task per sequence entry whose priority is
`10 - index` — the constant 10, independent of the sequence length, so
the first task has priority 10 and each later one is one lower. -/
theorem create_module_task_plan_priorities (module_name : String)
    (agents : List AgentConfig) (ts : Nat)
    (hidle : ∃ a ∈ agents, a.status = "idle") :
    (create_module_task_plan module_name agents ts).map (fun t => t.priority)
      = (List.range (sequence_for (determine_module_type agents)).length).map
          (fun i : Nat => (10 : Int) - (i : Int)) := by
  unfold create_module_task_plan
  rw [configure_preserves_priority]
  rw [buildTasks_priorities module_name agents ts
    (fun task => assign_agent_isSome task agents hidle)
    (sequence_for (determine_module_type agents)) 0]
  apply List.map_congr_left
  intro j hj
  norm_num

/-- C4 witness: the amended priority theorem for a backend module with a
single idle backend agent (sequence length 4, priorities 10,9,8,7). -/
theorem create_module_task_plan_priorities_witness :
    (∃ a ∈ [agentBackend], a.status = "idle") ∧
    (create_module_task_plan "m" [agentBackend] 0).map (fun t => t.priority)
      = (List.range (sequence_for (determine_module_type [agentBackend])).length).map
          (fun i : Nat => (10 : Int) - (i : Int)) :=
  have hidle : ∃ a ∈ [agentBackend], a.status = "idle" :=
    ⟨agentBackend, by simp, rfl⟩
  ⟨hidle, create_module_task_plan_priorities "m" [agentBackend] 0 hidle⟩

/-- C5 counterexample: with no agents at all (so no idle agent), the
returned plan is empty — the four backend-sequence tasks are dropped, not
created as unassigned tasks. -/
theorem unassigned_task_dropped_counterexample :
    create_module_task_plan "m" [] 0 = [] ∧
    (sequence_for (determine_module_type [])).length = 4 :=
  ⟨rfl, rfl⟩

theorem findPreferred_none (agents : List AgentConfig)
    (hno : ∀ a ∈ agents, a.status ≠ "idle") :
    ∀ roles, findPreferred agents roles = none := by
  intro roles
  induction roles with
  | nil => rfl
  | cons r rest ih =>
      have hf : agents.find? (fun a => a.role == r && a.status == "idle") = none := by
        rw [List.find?_eq_none]
        intro a ha
        simp only [Bool.and_eq_true, beq_iff_eq, not_and]
        exact fun _ => hno a ha
      simp only [findPreferred, hf]
      exact ih

theorem assign_agent_none (task : AgentTask) (agents : List AgentConfig)
    (hno : ∀ a ∈ agents, a.status ≠ "idle") :
    assign_agent_to_task task agents = none := by
  unfold assign_agent_to_task
  rw [findPreferred_none agents hno (task_role_mapping task.task_type)]
  show agents.find? (fun a => a.status == "idle") = none
  rw [List.find?_eq_none]
  intro a ha
  simp only [beq_iff_eq]
  exact hno a ha

theorem buildTasks_no_idle (module_name : String) (agents : List AgentConfig)
    (ts : Nat) (hno : ∀ a ∈ agents, a.status ≠ "idle") :
    ∀ (seq : List (String × String)) (i : Nat),
      buildTasks module_name agents ts seq i = [] := by
  intro seq
  induction seq with
  | nil => intro i; rfl
  | cons p rest ih =>
      intro i
      obtain ⟨tt, desc⟩ := p
      simp only [buildTasks]
      rw [assign_agent_none (mkPlanTask module_name ts i tt desc) agents hno]
      exact ih (i + 1)

/-- C5 (amended): each emitted task is assigned via the preferred-role
list for its category with a fallback to any idle agent, but when no
agent is idle the task is not created at all: the returned plan is empty
(every task of the sequence is dropped), rather than containing
unassigned tasks to be retried at execution time. -/
theorem create_module_task_plan_no_idle (module_name : String)
    (agents : List AgentConfig) (ts : Nat)
    (hno : ∀ a ∈ agents, a.status ≠ "idle") :
    create_module_task_plan module_name agents ts = [] := by
  unfold create_module_task_plan
  rw [buildTasks_no_idle module_name agents ts hno _ 0]
  rfl

/-- C5 witness: with one busy agent the builder returns the empty plan. -/
theorem create_module_task_plan_no_idle_witness :
    (∀ a ∈ [agentBusy], a.status ≠ "idle") ∧
    create_module_task_plan "m" [agentBusy] 0 = [] :=
  have hno : ∀ a ∈ [agentBusy], a.status ≠ "idle" := by
    intro a ha
    rw [List.mem_singleton.mp ha]
    decide
  ⟨hno, create_module_task_plan_no_idle "m" [agentBusy] 0 hno⟩

/-! ### Executor theorems (claim C1) -/

/-- A dependency-free task whose execution will fail. -/
def taskImpl : AgentTask :=
  { id := "t1", agent_id := "ag1", module_name := "m",
    task_type := "implement", description := "m: implement",
    priority := 10, dependencies := [] }

/-- A task depending on `taskImpl`. -/
def taskTest : AgentTask :=
  { id := "t2", agent_id := "ag1", module_name := "m",
    task_type := "test", description := "m: test",
    priority := 9, dependencies := ["t1"] }

/-- An outcome in which `t1` raises and everything else succeeds. -/
def outcomeT1Fails : String → Except String String :=
  fun i => if i = "t1" then Except.error "boom" else Except.ok "done"

/-- C1 counterexample: `t1` fails, yet its id is added to
`completed_tasks`, so its dependent `t2` becomes ready in the next round
and runs to `"completed"` — it is neither kept pending nor reported
blocked. -/
theorem failed_task_satisfies_deps_counterexample :
    ((execute_task_plan outcomeT1Fails [taskImpl, taskTest]).1.map
        (fun t => (t.id, t.status)))
      = [("t1", "failed"), ("t2", "completed")] ∧
    (execute_task_plan outcomeT1Fails [taskImpl, taskTest]).2.1 = ["t1", "t2"] :=
  ⟨rfl, rfl⟩

theorem runTask_id (outcome : String → Except String String) (t : AgentTask) :
    (runTask outcome t).id = t.id := by
  unfold runTask
  cases outcome t.id <;> rfl

theorem runTask_dependencies (outcome : String → Except String String)
    (t : AgentTask) : (runTask outcome t).dependencies = t.dependencies := by
  unfold runTask
  cases outcome t.id <;> rfl

theorem runTask_status (outcome : String → Except String String) (t : AgentTask) :
    (runTask outcome t).status = statusOf (outcome t.id) := by
  unfold runTask
  cases outcome t.id <;> rfl

/-- The id/dependency skeleton of a task list. -/
def taskPairs (tasks : List AgentTask) : List (String × List String) :=
  tasks.map (fun t => (t.id, t.dependencies))

theorem taskPairs_map_id (tasks tasks0 : List AgentTask)
    (h : taskPairs tasks = taskPairs tasks0) :
    tasks.map (fun t => t.id) = tasks0.map (fun t => t.id) := by
  have := congrArg (List.map Prod.fst) h
  simpa [taskPairs, List.map_map, Function.comp] using this

theorem taskPairs_length (tasks tasks0 : List AgentTask)
    (h : taskPairs tasks = taskPairs tasks0) : tasks.length = tasks0.length := by
  have := congrArg List.length h
  simpa [taskPairs] using this

/-- When every task is already counted as completed, the statuses recorded
by the loop invariant cover the whole plan and the completed set is a
permutation of the id set. -/
theorem executeExit_spec (tasks0 : List AgentTask)
    (hids : (tasks0.map (fun t => t.id)).Nodup)
    (tasks : List AgentTask) (completed : List String)
    (hmap : taskPairs tasks = taskPairs tasks0)
    (hcnodup : completed.Nodup)
    (hcsub : ∀ c ∈ completed, c ∈ tasks0.map (fun t => t.id))
    (outcome : String → Except String String)
    (hstat : ∀ t ∈ tasks, t.id ∈ completed → t.status = statusOf (outcome t.id))
    (hge : tasks0.length ≤ completed.length) :
    List.Perm completed (tasks0.map (fun t => t.id)) ∧
    tasks.map (fun t => t.id) = tasks0.map (fun t => t.id) ∧
    (∀ t ∈ tasks, t.status = statusOf (outcome t.id)) := by
  have hperm : List.Perm completed (tasks0.map (fun t => t.id)) := by
    have hsp : List.Subperm completed (tasks0.map (fun t => t.id)) :=
      hcnodup.subperm hcsub
    apply hsp.perm_of_length_le
    simpa [List.length_map] using hge
  refine ⟨hperm, taskPairs_map_id tasks tasks0 hmap, ?_⟩
  intro t ht
  apply hstat t ht
  apply (hperm.mem_iff).mpr
  rw [← taskPairs_map_id tasks tasks0 hmap]
  exact List.mem_map_of_mem _ ht

/-- Whenever not all tasks are completed, some incomplete task has all its
dependencies completed: the rank-minimal incomplete task is ready. -/
theorem ready_tasks_ne_nil (tasks0 : List AgentTask)
    (hids : (tasks0.map (fun t => t.id)).Nodup)
    (hclosed : ∀ t ∈ tasks0, ∀ d ∈ t.dependencies,
      d ∈ tasks0.map (fun t => t.id))
    (rank : String → Nat)
    (hrank : ∀ t ∈ tasks0, ∀ d ∈ t.dependencies, rank d < rank t.id)
    (tasks : List AgentTask) (completed : List String)
    (hmap : taskPairs tasks = taskPairs tasks0)
    (hcnodup : completed.Nodup)
    (hcsub : ∀ c ∈ completed, c ∈ tasks0.map (fun t => t.id))
    (hlt : completed.length < tasks.length) :
    tasks.filter (readyPred completed) ≠ [] := by
  have hidseq := taskPairs_map_id tasks tasks0 hmap
  have hleneq := taskPairs_length tasks tasks0 hmap
  -- an id outside the completed set exists
  have hex : ∃ x ∈ tasks0.map (fun t => t.id), x ∉ completed := by
    by_contra hall
    push_neg at hall
    have hsp : List.Subperm (tasks0.map (fun t => t.id)) completed :=
      hids.subperm hall
    have := hsp.length_le
    rw [List.length_map] at this
    omega
  obtain ⟨x, hx, hxc⟩ := hex
  rw [← hidseq] at hx
  obtain ⟨tx, htx, htxid⟩ := List.mem_map.mp hx
  have htxi : tx ∈ tasks.filter (fun t => !(completed.contains t.id)) := by
    refine List.mem_filter.mpr ⟨htx, ?_⟩
    rw [Bool.not_eq_true']
    rw [Bool.eq_false_iff]
    intro hc
    rw [htxid] at hc
    exact hxc (List.elem_iff.mp hc)
  -- pick the rank-minimal incomplete task
  cases hmin : (tasks.filter (fun t => !(completed.contains t.id))).argmin
      (fun t => rank t.id) with
  | none =>
      rw [List.argmin_eq_none] at hmin
      rw [hmin] at htxi
      exact absurd htxi (List.not_mem_nil tx)
  | some tmin =>
      have hminmem : tmin ∈ (tasks.filter
          (fun t => !(completed.contains t.id))).argmin (fun t => rank t.id) := by
        rw [hmin]
        rfl
      have htmin := List.argmin_mem hminmem
      have htmin_tasks : tmin ∈ tasks := (List.mem_filter.mp htmin).1
      have htmin_inc := (List.mem_filter.mp htmin).2
      -- the original task with the same id and dependencies
      have hpair : (tmin.id, tmin.dependencies) ∈ taskPairs tasks0 := by
        rw [← hmap]
        exact List.mem_map_of_mem _ htmin_tasks
      obtain ⟨t0, ht0, ht0eq⟩ := List.mem_map.mp hpair
      have ht0id : t0.id = tmin.id := congrArg Prod.fst ht0eq
      have ht0dep : t0.dependencies = tmin.dependencies := congrArg Prod.snd ht0eq
      have hready : (tmin.dependencies.all (fun d => completed.contains d)) = true := by
        rw [List.all_eq_true]
        intro d hd
        have hdlt : rank d < rank tmin.id := by
          rw [← ht0id]
          exact hrank t0 ht0 d (by rw [ht0dep]; exact hd)
        have hdin : d ∈ tasks0.map (fun t => t.id) :=
          hclosed t0 ht0 d (by rw [ht0dep]; exact hd)
        by_cases hdc : d ∈ completed
        · exact List.elem_iff.mpr hdc
        · exfalso
          rw [← hidseq] at hdin
          obtain ⟨td, htd, htdid⟩ := List.mem_map.mp hdin
          have htdi : td ∈ tasks.filter (fun t => !(completed.contains t.id)) := by
            refine List.mem_filter.mpr ⟨htd, ?_⟩
            rw [Bool.not_eq_true']
            rw [Bool.eq_false_iff]
            intro hc
            rw [htdid] at hc
            exact hdc (List.elem_iff.mp hc)
          have hle := List.le_of_mem_argmin htdi hminmem
          rw [htdid] at hle
          omega
      intro hnil
      have : tmin ∈ tasks.filter (readyPred completed) := by
        refine List.mem_filter.mpr ⟨htmin_tasks, ?_⟩
        unfold readyPred
        rw [Bool.and_eq_true]
        exact ⟨htmin_inc, hready⟩
      rw [hnil] at this
      exact absurd this (List.not_mem_nil tmin)

theorem batchOf_length_pos (mc : Nat) (ready : List AgentTask)
    (hmc : 1 ≤ mc) (hne : ready ≠ []) : 1 ≤ (batchOf mc ready).length := by
  unfold batchOf
  rw [List.length_take]
  have := List.length_pos.mpr hne
  omega

theorem mem_batch_not_completed (completed : List String)
    (tasks : List AgentTask) (mc : Nat) (b : AgentTask)
    (hb : b ∈ batchOf mc (tasks.filter (readyPred completed))) :
    b.id ∉ completed := by
  have hbr : b ∈ tasks.filter (readyPred completed) :=
    (List.take_sublist _ _).subset hb
  have hpred := (List.mem_filter.mp hbr).2
  unfold readyPred at hpred
  rw [Bool.and_eq_true] at hpred
  have h1 := hpred.1
  rw [Bool.not_eq_true'] at h1
  intro hc
  have h2 := List.elem_iff.mpr hc
  have h1' : List.elem b.id completed = false := h1
  rw [h1'] at h2
  exact Bool.false_ne_true h2

theorem executeLoop_step (outcome : String → Except String String)
    (mc fuel : Nat) (tasks : List AgentTask) (completed results : List String)
    (hlt : completed.length < tasks.length)
    (hne : (tasks.filter (readyPred completed)).isEmpty = false) :
    executeLoop outcome mc (fuel + 1) tasks completed results
      = executeLoop outcome mc fuel
          (tasks.map (fun t =>
            if (batchOf mc (tasks.filter (readyPred completed))).any
                (fun b => b.id == t.id) then
              runTask outcome t
            else t))
          (completed ++
            (batchOf mc (tasks.filter (readyPred completed))).map
              (fun b => b.id))
          (results ++
            (batchOf mc (tasks.filter (readyPred completed))).filterMap
              (fun b =>
                match outcome b.id with
                | Except.ok r => some r
                | Except.error _ => none)) := by
  simp only [executeLoop]
  rw [if_pos hlt, if_neg (by rw [hne]; exact Bool.false_ne_true)]

theorem executeLoop_exit (outcome : String → Except String String)
    (mc fuel : Nat) (tasks : List AgentTask) (completed results : List String)
    (hge : ¬ completed.length < tasks.length) :
    executeLoop outcome mc (fuel + 1) tasks completed results
      = (tasks, completed, results) := by
  simp only [executeLoop]
  rw [if_neg hge]

theorem executeLoop_total (outcome : String → Except String String)
    (maxConc : Nat) (hmc : 1 ≤ maxConc)
    (tasks0 : List AgentTask)
    (hids : (tasks0.map (fun t => t.id)).Nodup)
    (hclosed : ∀ t ∈ tasks0, ∀ d ∈ t.dependencies,
      d ∈ tasks0.map (fun t => t.id))
    (rank : String → Nat)
    (hrank : ∀ t ∈ tasks0, ∀ d ∈ t.dependencies, rank d < rank t.id) :
    ∀ (fuel : Nat) (tasks : List AgentTask) (completed results : List String),
      taskPairs tasks = taskPairs tasks0 →
      completed.Nodup →
      (∀ c ∈ completed, c ∈ tasks0.map (fun t => t.id)) →
      (∀ t ∈ tasks, t.id ∈ completed → t.status = statusOf (outcome t.id)) →
      tasks0.length - completed.length ≤ fuel →
      List.Perm (executeLoop outcome maxConc fuel tasks completed results).2.1
          (tasks0.map (fun t => t.id)) ∧
      (executeLoop outcome maxConc fuel tasks completed results).1.map
          (fun t => t.id) = tasks0.map (fun t => t.id) ∧
      (∀ t ∈ (executeLoop outcome maxConc fuel tasks completed results).1,
        t.status = statusOf (outcome t.id)) := by
  intro fuel
  induction fuel with
  | zero =>
      intro tasks completed results hmap hcnodup hcsub hstat hfuel
      have hge : tasks0.length ≤ completed.length := by omega
      exact executeExit_spec tasks0 hids tasks completed hmap hcnodup hcsub
        outcome hstat hge
  | succ fuel ih =>
      intro tasks completed results hmap hcnodup hcsub hstat hfuel
      by_cases hlt : completed.length < tasks.length
      · have hready := ready_tasks_ne_nil tasks0 hids hclosed rank hrank
          tasks completed hmap hcnodup hcsub hlt
        have hreadyE : (tasks.filter (readyPred completed)).isEmpty = false := by
          cases h : (tasks.filter (readyPred completed)).isEmpty
          · rfl
          · exact absurd (List.isEmpty_iff.mp h) hready
        rw [executeLoop_step outcome maxConc fuel tasks completed results hlt hreadyE]
        have hidseq := taskPairs_map_id tasks tasks0 hmap
        have hmap' : taskPairs (tasks.map (fun t =>
            if (batchOf maxConc (tasks.filter (readyPred completed))).any
                (fun b => b.id == t.id) then runTask outcome t else t))
            = taskPairs tasks0 := by
          rw [← hmap]
          unfold taskPairs
          rw [List.map_map]
          apply List.map_congr_left
          intro t ht
          simp only [Function.comp_apply]
          cases hc : (batchOf maxConc (tasks.filter (readyPred completed))).any
              (fun b => b.id == t.id)
          · simp
          · simp [runTask_id, runTask_dependencies]
        have hbn : ((batchOf maxConc (tasks.filter (readyPred completed))).map
            (fun b => b.id)).Nodup := by
          have hsl : List.Sublist
              ((batchOf maxConc (tasks.filter (readyPred completed))).map
                (fun b => b.id))
              (tasks.map (fun t => t.id)) := by
            apply List.Sublist.map
            exact (List.take_sublist _ _).trans (List.filter_sublist _)
          rw [hidseq] at hsl
          exact hids.sublist hsl
        have hdisj : ∀ a ∈ completed,
            a ∉ (batchOf maxConc (tasks.filter (readyPred completed))).map
              (fun b => b.id) := by
          intro a ha hmem
          obtain ⟨b, hb, hbid⟩ := List.mem_map.mp hmem
          have hnc := mem_batch_not_completed completed tasks maxConc b hb
          rw [hbid] at hnc
          exact hnc ha
        have hcnodup' : (completed ++
            (batchOf maxConc (tasks.filter (readyPred completed))).map
              (fun b => b.id)).Nodup := by
          rw [List.nodup_append]
          exact ⟨hcnodup, hbn, hdisj⟩
        have hcsub' : ∀ c ∈ completed ++
            (batchOf maxConc (tasks.filter (readyPred completed))).map
              (fun b => b.id),
            c ∈ tasks0.map (fun t => t.id) := by
          intro c hc
          rcases List.mem_append.mp hc with h | h
          · exact hcsub c h
          · obtain ⟨b, hb, hbid⟩ := List.mem_map.mp h
            have hbt : b ∈ tasks :=
              (List.filter_sublist _).subset ((List.take_sublist _ _).subset hb)
            rw [← hbid, ← hidseq]
            exact List.mem_map_of_mem _ hbt
        have hstat' : ∀ t' ∈ tasks.map (fun t =>
            if (batchOf maxConc (tasks.filter (readyPred completed))).any
                (fun b => b.id == t.id) then runTask outcome t else t),
            t'.id ∈ completed ++
              (batchOf maxConc (tasks.filter (readyPred completed))).map
                (fun b => b.id) →
            t'.status = statusOf (outcome t'.id) := by
          intro t' ht' hid
          obtain ⟨t, ht, hteq⟩ := List.mem_map.mp ht'
          cases hc : (batchOf maxConc (tasks.filter (readyPred completed))).any
              (fun b => b.id == t.id)
          · have htt : t' = t := by
              rw [← hteq]
              show (if ((batchOf maxConc
                  (tasks.filter (readyPred completed))).any
                    (fun b => b.id == t.id)) = true then
                  runTask outcome t
                else t) = t
              rw [hc]
              simp
            rw [htt] at hid ⊢
            rcases List.mem_append.mp hid with h | h
            · exact hstat t ht h
            · exfalso
              obtain ⟨b, hb, hbid⟩ := List.mem_map.mp h
              have hany : (batchOf maxConc (tasks.filter (readyPred completed))).any
                  (fun b => b.id == t.id) = true :=
                List.any_eq_true.mpr ⟨b, hb, beq_iff_eq.mpr hbid⟩
              rw [hany] at hc
              exact Bool.noConfusion hc
          · have htt : t' = runTask outcome t := by
              rw [← hteq]
              show (if ((batchOf maxConc
                  (tasks.filter (readyPred completed))).any
                    (fun b => b.id == t.id)) = true then
                  runTask outcome t
                else t) = runTask outcome t
              rw [hc]
              simp
            rw [htt, runTask_status, runTask_id]
        have hblen : 1 ≤ (batchOf maxConc
            (tasks.filter (readyPred completed))).length :=
          batchOf_length_pos maxConc _ hmc hready
        have hfuel' : tasks0.length - (completed ++
            (batchOf maxConc (tasks.filter (readyPred completed))).map
              (fun b => b.id)).length ≤ fuel := by
          rw [List.length_append, List.length_map]
          omega
        exact ih _ _ _ hmap' hcnodup' hcsub' hstat' hfuel'
      · rw [executeLoop_exit outcome maxConc fuel tasks completed results hlt]
        have hleneq := taskPairs_length tasks tasks0 hmap
        exact executeExit_spec tasks0 hids tasks completed hmap hcnodup hcsub
          outcome hstat (by omega)

/-- C1 (amended): a task that fails during execution is marked failed,
but its id is nonetheless added to `completed_tasks`, so it still
satisfies its dependents' dependencies.  Consequently, for every plan
with unique ids, in-plan dependencies and an acyclic dependency graph,
every task — dependents of failed tasks included — is executed and ends
in the terminal status determined by its own outcome (`"completed"` on
success, `"failed"` on failure): no dependent stays pending and nothing
is reported blocked. -/
theorem execute_task_plan_failed_not_blocking (tasks : List AgentTask)
    (outcome : String → Except String String)
    (hids : (tasks.map (fun t => t.id)).Nodup)
    (hclosed : ∀ t ∈ tasks, ∀ d ∈ t.dependencies,
      d ∈ tasks.map (fun t => t.id))
    (hacyc : ∃ rank : String → Nat,
      ∀ t ∈ tasks, ∀ d ∈ t.dependencies, rank d < rank t.id) :
    List.Perm (execute_task_plan outcome tasks).2.1
        (tasks.map (fun t => t.id)) ∧
    (execute_task_plan outcome tasks).1.map (fun t => t.id)
        = tasks.map (fun t => t.id) ∧
    (∀ t ∈ (execute_task_plan outcome tasks).1,
      t.status = statusOf (outcome t.id)) := by
  obtain ⟨rank, hrank⟩ := hacyc
  exact executeLoop_total outcome 10 (by norm_num) tasks hids hclosed rank hrank
    tasks.length tasks [] [] rfl List.nodup_nil (by simp) (by simp) (by simp)

/-- C1 witness: the amended executor theorem at the two-task plan in
which `t1` fails and `t2` depends on it — both end terminal, with `t2`
completed. -/
theorem execute_task_plan_failed_not_blocking_witness :
    ([taskImpl, taskTest].map (fun t => t.id)).Nodup ∧
    (∀ t ∈ [taskImpl, taskTest], ∀ d ∈ t.dependencies,
      d ∈ [taskImpl, taskTest].map (fun t => t.id)) ∧
    (∃ rank : String → Nat, ∀ t ∈ [taskImpl, taskTest],
      ∀ d ∈ t.dependencies, rank d < rank t.id) ∧
    (List.Perm (execute_task_plan outcomeT1Fails [taskImpl, taskTest]).2.1
        ([taskImpl, taskTest].map (fun t => t.id)) ∧
     (execute_task_plan outcomeT1Fails [taskImpl, taskTest]).1.map
        (fun t => t.id) = [taskImpl, taskTest].map (fun t => t.id) ∧
     (∀ t ∈ (execute_task_plan outcomeT1Fails [taskImpl, taskTest]).1,
       t.status = statusOf (outcomeT1Fails t.id))) :=
  have h1 : ([taskImpl, taskTest].map (fun t => t.id)).Nodup := by decide
  have h2 : ∀ t ∈ [taskImpl, taskTest], ∀ d ∈ t.dependencies,
      d ∈ [taskImpl, taskTest].map (fun t => t.id) := by decide
  have h3 : ∃ rank : String → Nat, ∀ t ∈ [taskImpl, taskTest],
      ∀ d ∈ t.dependencies, rank d < rank t.id :=
    ⟨fun s => if s = "t1" then 0 else 1, by decide⟩
  ⟨h1, h2, h3,
    execute_task_plan_failed_not_blocking [taskImpl, taskTest] outcomeT1Fails
      h1 h2 h3⟩

end PMBot
